import Mathlib

/-!
Verification of the codevideo-virtual-editor engines.

The repository contains two editor engines:
* the older class in src/src/VirtualEditor.ts (action names "enter", "arrow-up", ...,
  caret reported 0-indexed), and
* the unified class embedded in src/__tests__/unit/OtherExamples.ts (action names
  "editor-enter", "editor-arrow-up", ..., caret reported with a +1 display offset).

Both are shallowly embedded below.  Text lines are `List Char`; JS numbers holding
caret/highlight coordinates are `Int` (the code uses the sentinel -1 and can produce
negative columns).  JS exceptions (the only reachable one is `Array(n)` with an invalid
length inside the enter-with-selection branch) are modelled by `Option`: `none` means the
call threw.  Histories are append-only lists, mirroring the `.push(...)` calls at the end
of `applyAction`.
-/

namespace CodeVideo

/-- One scripted action: `{name, value}` as in the IAction interface of codevideo-types.
`value` is either a textual repeat count or a literal text payload. -/
structure Act where
  name : String
  value : List Char
deriving DecidableEq

/-- JS `String.prototype.substring(a, b)`: both indices are clamped to `[0, length]`
and swapped when reversed. -/
def jsSubstring (s : List Char) (a b : Int) : List Char :=
  let n := s.length
  let a' := min a.toNat n
  let b' := min b.toNat n
  (s.take (max a' b')).drop (min a' b')

/-- JS `String.prototype.substring(a)` (one-argument form): from `a` to the end. -/
def jsSubstringFrom (s : List Char) (a : Int) : List Char :=
  jsSubstring s a s.length

/-- JS array-index clamping used by `Array.prototype.splice`: a negative start counts
from the end, and the result is clamped into `[0, length]`. -/
def jsClampIndex (n : Nat) (start : Int) : Nat :=
  (if start < 0 then max ((n : Int) + start) 0 else min start (n : Int)).toNat

/-- JS `Array.prototype.splice(start, deleteCount)` (pure removal form): removes
`deleteCount` elements (clamped to what is available) at the clamped start index. -/
def jsSpliceRemove (l : List α) (start delCount : Int) : List α :=
  let s := jsClampIndex l.length start
  let d := (min delCount ((l.length : Int) - s)).toNat
  l.take s ++ l.drop (s + d)

/-- JS `Array.prototype.splice(start, 0, ...items)` (pure insertion form). -/
def jsSpliceInsert (l : List α) (start : Int) (items : List α) : List α :=
  let s := jsClampIndex l.length start
  l.take s ++ items ++ l.drop s

/-- JS element assignment `lines[i] = x`.  Every assignment performed by the engines
uses an index inside the array (proved by the reachability invariant below), where it
agrees with `List.set`; out-of-range JS assignments (which would create holes) never
occur and are mapped to `List.set`'s no-op. -/
def jsSetLine (l : List (List Char)) (i : Int) (x : List Char) : List (List Char) :=
  if 0 ≤ i then l.set i.toNat x else l

/-- JS element read `lines[i]`.  An out-of-range read yields `undefined`; the unified
engine guards the one read that can be out of range (`currentLineObject ? ... : 0`),
and all other reads are in range for reachable states, so the default `[]` is only the
image of that guard. -/
def lineAt (l : List (List Char)) (i : Int) : List Char :=
  if 0 ≤ i then l.getD i.toNat [] else []

/-- Digit run of JS `parseInt`: accumulates leading decimal digits. -/
def digitsAcc : List Char → Nat → Nat
  | [], acc => acc
  | c :: rest, acc =>
    if c.isDigit then digitsAcc rest (acc * 10 + (c.toNat - '0'.toNat)) else acc

/-- ECMAScript `StrWhiteSpaceChar`: WhiteSpace (TAB, VT, FF, SP, NBSP, ZWNBSP and the
Unicode Zs space separators U+1680, U+2000..U+200A, U+202F, U+205F, U+3000) or a
LineTerminator (LF, CR, LS, PS).  `parseInt` trims exactly these. -/
def isStrWhiteSpace (c : Char) : Bool :=
  c.toNat == 0x9 || c.toNat == 0xA || c.toNat == 0xB || c.toNat == 0xC ||
  c.toNat == 0xD || c.toNat == 0x20 || c.toNat == 0xA0 || c.toNat == 0x1680 ||
  (decide (0x2000 ≤ c.toNat) && decide (c.toNat ≤ 0x200A)) ||
  c.toNat == 0x2028 || c.toNat == 0x2029 || c.toNat == 0x202F ||
  c.toNat == 0x205F || c.toNat == 0x3000 || c.toNat == 0xFEFF

/-- Hexadecimal digit, both cases, as accepted after a `0x`/`0X` prefix. -/
def isHexDigit (c : Char) : Bool :=
  c.isDigit || (decide (0x61 ≤ c.toNat) && decide (c.toNat ≤ 0x66)) ||
  (decide (0x41 ≤ c.toNat) && decide (c.toNat ≤ 0x46))

/-- Hex-digit run of JS `parseInt` after a `0x`/`0X` prefix. -/
def hexAcc : List Char → Nat → Nat
  | [], acc => acc
  | c :: rest, acc =>
    if c.isDigit then hexAcc rest (acc * 16 + (c.toNat - 0x30))
    else if 0x61 ≤ c.toNat then hexAcc rest (acc * 16 + (c.toNat - 0x61 + 10))
    else hexAcc rest (acc * 16 + (c.toNat - 0x41 + 10))

/-- JS `parseInt(s)` with no radix argument: trim leading `StrWhiteSpaceChar`s, read
an optional sign, auto-detect a `0x`/`0X` prefix (radix 16), otherwise use radix 10,
then take the longest run of digits of that radix; `none` models the `NaN` result
when that run is empty (including a bare `0x` with no hex digit). -/
def jsParseInt (s : List Char) : Option Int :=
  let t := s.dropWhile isStrWhiteSpace
  let (sign, u) : Int × List Char :=
    match t with
    | '-' :: r => (-1, r)
    | '+' :: r => (1, r)
    | r => (1, r)
  match u with
  | '0' :: 'x' :: r =>
    let ds := r.takeWhile isHexDigit
    if ds.isEmpty then none else some (sign * (hexAcc ds 0 : Int))
  | '0' :: 'X' :: r =>
    let ds := r.takeWhile isHexDigit
    if ds.isEmpty then none else some (sign * (hexAcc ds 0 : Int))
  | _ =>
    let ds := u.takeWhile Char.isDigit
    if ds.isEmpty then none else some (sign * (digitsAcc ds 0 : Int))

/-- JS `String.prototype.split(sep)` for a single-character separator:
`"".split` gives `[""]`, and a trailing separator yields a trailing empty piece. -/
def jsSplit (sep : Char) : List Char → List (List Char)
  | [] => [[]]
  | c :: rest =>
    match jsSplit sep rest with
    | [] => [[]]
    | h :: t => if c = sep then [] :: h :: t else (c :: h) :: t

/-- Join code lines with a line break: `codeLines.join("\n")`. -/
def joinLines (l : List (List Char)) : List Char :=
  List.intercalate ['\n'] l

/-- Number of executions of a JS loop `for (let i = 0; i < numTimes; i++)`:
zero when `numTimes` is `NaN` (every comparison with NaN is false) or non-positive. -/
def nIter : Option Int → Nat
  | none => 0
  | some n => n.toNat

/-- Modelled from the spec: the classifier `isRepeatableAction` lives in the external
codevideo-types package (spec section 1 lists such predicates as out-of-scope
collaborators).  Per spec section 4.1 an action is classified "repeatable" by its kind:
it carries a textual repeat count instead of a payload.  These are the unified engine's
repeat-count kinds (newline, the plain and selection-extending movements,
line-start/line-end, delete-backward, insert-space, insert-tab); text insertion carries
a payload and is not repeatable. -/
def repeatableNamesNew : List String :=
  ["editor-enter", "editor-arrow-up", "editor-arrow-down", "editor-arrow-left",
   "editor-arrow-right", "editor-command-left", "editor-command-right",
   "editor-backspace", "editor-space", "editor-tab",
   "editor-shift+arrow-left", "editor-shift+arrow-right",
   "editor-shift+arrow-up", "editor-shift+arrow-down"]

/-- Modelled from the spec: the older engine's spellings of the repeatable kinds
(the shift+arrow-up/down kinds do not exist in the older engine's dispatch, but their
classification is irrelevant there). -/
def repeatableNamesOld : List String :=
  ["enter", "arrow-up", "arrow-down", "arrow-left", "arrow-right",
   "command-left", "command-right", "backspace", "space", "tab",
   "shift+arrow-left", "shift+arrow-right"]

/-- Mutable fields of an engine that the action switch reads and writes.  The older
engine has no `isSaved` / context-menu fields; they are carried unchanged by its cases
so that the literally-duplicated case bodies can be shared between the two embeddings. -/
structure CoreState where
  caretRow : Int
  caretCol : Int
  highlightStartRow : Int
  highlightStartCol : Int
  codeLines : List (List Char)
  currentlyHighlightedCode : List Char
  isSaved : Bool
  isEditorContextMenuOpen : Bool
deriving DecidableEq

/-- The method `clearCurrentHighlightedCode()`. -/
def clearHi (s : CoreState) : CoreState :=
  { s with highlightStartRow := -1, highlightStartCol := -1,
           currentlyHighlightedCode := [] }

/-- The helper `calculateHighlightedText()` (identical in both engines): text in the
normalized selection range, multi-line pieces joined with a line break. -/
def calculateHighlightedText (s : CoreState) : List Char :=
  if s.highlightStartRow = -1 then []
  else if s.caretRow = s.highlightStartRow then
    jsSubstring (lineAt s.codeLines s.caretRow)
      (min s.highlightStartCol s.caretCol) (max s.highlightStartCol s.caretCol)
  else
    let startRow := min s.highlightStartRow s.caretRow
    let endRow := max s.highlightStartRow s.caretRow
    let fwd := s.highlightStartRow < s.caretRow
    let firstCol := if fwd then s.highlightStartCol else s.caretCol
    let lastCol := if fwd then s.caretCol else s.highlightStartCol
    joinLines
      ([jsSubstringFrom (lineAt s.codeLines startRow) firstCol] ++
       (List.range (endRow - startRow - 1).toNat).map
         (fun k => lineAt s.codeLines (startRow + 1 + (k : Int))) ++
       [jsSubstring (lineAt s.codeLines endRow) 0 lastCol])

/-- One iteration of the no-selection enter loop: split the current line at the caret,
insert the tail as a new line below, move the caret to the start of the new line. -/
def enterStep (s : CoreState) : CoreState :=
  let currentLine := lineAt s.codeLines s.caretRow
  let beforeCaret := jsSubstring currentLine 0 s.caretCol
  let afterCaret := jsSubstringFrom currentLine s.caretCol
  let l1 := jsSetLine s.codeLines s.caretRow beforeCaret
  let l2 := jsSpliceInsert l1 (s.caretRow + 1) [afterCaret]
  { s with codeLines := l2, caretRow := s.caretRow + 1, caretCol := 0 }

/-- Unified engine, enter with an active selection, exception path included: the JS
assigns `codeLines[startRow] = beforeText` and splices away the selected rows BEFORE
constructing `Array(numTimes - 1)`, which throws a RangeError when `numTimes - 1` is
NaN, negative, or at least 2^32 (an invalid array length).  `Except.error` carries the
state the persisting object is left in at the throw: the shortened buffer with the
caret and the highlight anchor untouched (the caret update comes after the `Array`
call).  `Except.ok` is the completed call. -/
def enterHighlightNewE (s : CoreState) (numTimes : Option Int) : Except CoreState CoreState :=
  let fwd := s.highlightStartRow < s.caretRow ∨
    (s.highlightStartRow = s.caretRow ∧ s.highlightStartCol ≤ s.caretCol)
  let startRow := if fwd then s.highlightStartRow else s.caretRow
  let endRow := if fwd then s.caretRow else s.highlightStartRow
  let startCol := if fwd then s.highlightStartCol else s.caretCol
  let endCol := if fwd then s.caretCol else s.highlightStartCol
  let beforeText := jsSubstring (lineAt s.codeLines startRow) 0 startCol
  let afterText := jsSubstringFrom (lineAt s.codeLines endRow) endCol
  let l1 := jsSetLine s.codeLines startRow beforeText
  let l2 := if startRow < endRow then jsSpliceRemove l1 (startRow + 1) (endRow - startRow) else l1
  match numTimes with
  | none => Except.error { s with codeLines := l2 }
  | some n =>
    if n - 1 < 0 ∨ 4294967296 ≤ n - 1 then Except.error { s with codeLines := l2 }
    else
      let newContent := List.replicate (n - 1).toNat ([] : List Char) ++ [afterText]
      Except.ok { s with
        codeLines := jsSpliceInsert l2 (startRow + n) newContent,
        caretRow := startRow + n, caretCol := 0,
        highlightStartRow := -1, highlightStartCol := -1,
        currentlyHighlightedCode := [] }

/-- The completed-call projection of `enterHighlightNewE`, used by the pipeline of
completed `applyAction` calls (a throw aborts the call before anything is recorded;
the thrown-upon state itself is the `Except.error` of `enterHighlightNewE`). -/
def enterHighlightNew (s : CoreState) (numTimes : Option Int) : Option CoreState :=
  (enterHighlightNewE s numTimes).toOption

/-- Older engine, enter with an active selection, exception path included: delete the
selected range (the `codeLines[startRow]` assignment and the splice), then
`Array(numTimes)` throws for a NaN, negative or `≥ 2^32` repeat count, leaving the
persisting object in the `Except.error` state; on a completed call insert `numTimes`
blank lines (plus the tail text if non-empty) after `startRow`, the caret landing one
row further when the tail text is non-empty. -/
def enterHighlightOldE (s : CoreState) (numTimes : Option Int) : Except CoreState CoreState :=
  let fwd := s.highlightStartRow < s.caretRow ∨
    (s.highlightStartRow = s.caretRow ∧ s.highlightStartCol ≤ s.caretCol)
  let startRow := if fwd then s.highlightStartRow else s.caretRow
  let endRow := if fwd then s.caretRow else s.highlightStartRow
  let startCol := if fwd then s.highlightStartCol else s.caretCol
  let endCol := if fwd then s.caretCol else s.highlightStartCol
  let beforeText := jsSubstring (lineAt s.codeLines startRow) 0 startCol
  let afterText := jsSubstringFrom (lineAt s.codeLines endRow) endCol
  let l1 := jsSetLine s.codeLines startRow beforeText
  let l2 := if startRow < endRow then jsSpliceRemove l1 (startRow + 1) (endRow - startRow) else l1
  match numTimes with
  | none => Except.error { s with codeLines := l2 }
  | some n =>
    if n < 0 ∨ 4294967296 ≤ n then Except.error { s with codeLines := l2 }
    else
      let newLines := List.replicate n.toNat ([] : List Char) ++
        (if afterText ≠ [] then [afterText] else [])
      Except.ok { s with
        codeLines := jsSpliceInsert l2 (startRow + 1) newLines,
        caretRow := if afterText ≠ [] then startRow + n + 1 else startRow + n,
        caretCol := 0,
        highlightStartRow := -1, highlightStartCol := -1,
        currentlyHighlightedCode := [] }

/-- The completed-call projection of `enterHighlightOldE`. -/
def enterHighlightOld (s : CoreState) (numTimes : Option Int) : Option CoreState :=
  (enterHighlightOldE s numTimes).toOption

/-- Selection deletion performed at the start of the type case (identical in both
engines): uses the raw anchor as start and the caret as end without normalization. -/
def typeDeleteHighlight (s : CoreState) : CoreState :=
  let startRow := s.highlightStartRow
  let startColumn := s.highlightStartCol
  let endRow := s.caretRow
  let endColumn := s.caretCol
  let l1 :=
    if startRow = endRow then
      jsSetLine s.codeLines startRow
        (jsSubstring (lineAt s.codeLines startRow) 0 startColumn ++
         jsSubstringFrom (lineAt s.codeLines startRow) endColumn)
    else
      jsSpliceRemove
        (jsSetLine s.codeLines startRow
          (jsSubstring (lineAt s.codeLines startRow) 0 startColumn ++
           jsSubstringFrom (lineAt s.codeLines endRow) endColumn))
        (startRow + 1) (endRow - startRow)
  { s with codeLines := l1, caretRow := startRow, caretCol := startColumn,
           highlightStartRow := -1, highlightStartCol := -1,
           currentlyHighlightedCode := [] }

/-- Older engine, one iteration of the type loop: splice the payload into the current
line at the caret (no newline handling) and advance the caret by the payload length. -/
def typeStepOld (v : List Char) (s : CoreState) : CoreState :=
  let cur := lineAt s.codeLines s.caretRow
  { s with codeLines := jsSetLine s.codeLines s.caretRow
             (jsSubstring cur 0 s.caretCol ++ v ++ jsSubstringFrom cur s.caretCol),
           caretCol := s.caretCol + v.length }

/-- Inner `j`-loop of the unified type case: insert the remaining payload segments as
new lines below the caret; the last segment gets the saved rest of the original line
appended and leaves the caret at the end of that segment. -/
def typeInsertRest (restOfLine : List Char) : List (List Char) → CoreState → CoreState
  | [], s => s
  | [lastSeg], s =>
    { s with caretRow := s.caretRow + 1,
             codeLines := jsSpliceInsert s.codeLines (s.caretRow + 1) [lastSeg ++ restOfLine],
             caretCol := (lastSeg.length : Int) }
  | seg :: next :: t, s =>
    typeInsertRest restOfLine (next :: t)
      { s with caretRow := s.caretRow + 1,
               codeLines := jsSpliceInsert s.codeLines (s.caretRow + 1) [seg] }

/-- Unified engine, one iteration of the type loop: newline-aware payload insertion. -/
def typeStepNew (v : List Char) (s : CoreState) : CoreState :=
  match jsSplit '\n' v with
  | [] => s
  | [_] =>
    let cur := lineAt s.codeLines s.caretRow
    { s with codeLines := jsSetLine s.codeLines s.caretRow
               (jsSubstring cur 0 s.caretCol ++ v ++ jsSubstringFrom cur s.caretCol),
             caretCol := s.caretCol + v.length }
  | firstSeg :: rest =>
    let cur := lineAt s.codeLines s.caretRow
    let restOfLine := jsSubstringFrom cur s.caretCol
    typeInsertRest restOfLine rest
      { s with codeLines := jsSetLine s.codeLines s.caretRow
                 (jsSubstring cur 0 s.caretCol ++ firstSeg) }

/-- One iteration of arrow-down: move down unless on the last row. -/
def arrowDownStep (s : CoreState) : CoreState :=
  if s.caretRow < (s.codeLines.length : Int) - 1 then { s with caretRow := s.caretRow + 1 } else s

/-- One iteration of arrow-up: move up unless on the first row. -/
def arrowUpStep (s : CoreState) : CoreState :=
  if 0 < s.caretRow then { s with caretRow := s.caretRow - 1 } else s

/-- Unified engine, one iteration of arrow-right against the line length captured
before the loop: step right while strictly below it, else wrap to the next line. -/
def arrowRightStepNew (currentLineLength : Int) (s : CoreState) : CoreState :=
  if s.caretCol < currentLineLength then { s with caretCol := s.caretCol + 1 }
  else if s.caretRow < (s.codeLines.length : Int) - 1 then
    { s with caretRow := s.caretRow + 1, caretCol := 0 }
  else s

/-- Older engine, one iteration of arrow-right: steps right only while strictly below
`currentLineLength - 1`, so it stops one short of the end-of-line column. -/
def arrowRightStepOld (currentLineLength : Int) (s : CoreState) : CoreState :=
  if s.caretCol < currentLineLength - 1 then { s with caretCol := s.caretCol + 1 }
  else if s.caretRow < (s.codeLines.length : Int) - 1 then
    { s with caretRow := s.caretRow + 1, caretCol := 0 }
  else s

/-- One iteration of arrow-left (identical in both engines): step left, or wrap to the
previous row at column `length - 1` (not `length`). -/
def arrowLeftStep (s : CoreState) : CoreState :=
  if 0 < s.caretCol then { s with caretCol := s.caretCol - 1 }
  else if 0 < s.caretRow then
    { s with caretRow := s.caretRow - 1,
             caretCol := ((lineAt s.codeLines (s.caretRow - 1)).length : Int) - 1 }
  else s

/-- One iteration of the no-selection backspace loop: delete the character before the
caret, or merge the current line onto the previous one at column 0. -/
def backspaceStep (s : CoreState) : CoreState :=
  if 0 < s.caretCol then
    let cur := lineAt s.codeLines s.caretRow
    { s with codeLines := jsSetLine s.codeLines s.caretRow
               (jsSubstring cur 0 (s.caretCol - 1) ++ jsSubstringFrom cur s.caretCol),
             caretCol := s.caretCol - 1 }
  else if 0 < s.caretRow then
    let previousLineLength := ((lineAt s.codeLines (s.caretRow - 1)).length : Int)
    { s with codeLines := jsSpliceRemove
               (jsSetLine s.codeLines (s.caretRow - 1)
                 (lineAt s.codeLines (s.caretRow - 1) ++ lineAt s.codeLines s.caretRow))
               s.caretRow 1,
             caretRow := s.caretRow - 1, caretCol := previousLineLength }
  else s

/-- Backspace with an active selection (identical in both engines): row-normalized
deletion of the selected range, caret to the normalized start. -/
def backspaceHighlight (s : CoreState) : CoreState :=
  let startRow := min s.highlightStartRow s.caretRow
  let endRow := max s.highlightStartRow s.caretRow
  let fwd := s.highlightStartRow < s.caretRow
  let startCol := if fwd then s.highlightStartCol else s.caretCol
  let endCol := if fwd then s.caretCol else s.highlightStartCol
  let s1 :=
    if startRow = endRow then
      let lo := min startCol endCol
      let hi := max startCol endCol
      { s with codeLines := jsSetLine s.codeLines startRow
                 (jsSubstring (lineAt s.codeLines startRow) 0 lo ++
                  jsSubstringFrom (lineAt s.codeLines startRow) hi),
               caretRow := startRow, caretCol := lo }
    else
      { s with codeLines := jsSpliceRemove
                 (jsSetLine s.codeLines startRow
                   (jsSubstring (lineAt s.codeLines startRow) 0 startCol ++
                    jsSubstringFrom (lineAt s.codeLines endRow) endCol))
                 (startRow + 1) (endRow - startRow),
               caretRow := startRow, caretCol := startCol }
  clearHi s1

/-- Space with an active selection (identical in both engines).  Note the column
normalization: when the anchor row equals the caret row, both `startCol` and `endCol`
resolve to the anchor column, so a single-line selection deletes nothing and the caret
jumps to the anchor column. -/
def spaceHighlight (s : CoreState) : CoreState :=
  let startRow := min s.highlightStartRow s.caretRow
  let endRow := max s.highlightStartRow s.caretRow
  let startCol := if startRow = s.highlightStartRow then s.highlightStartCol else s.caretCol
  let endCol := if endRow = s.highlightStartRow then s.highlightStartCol else s.caretCol
  let s1 :=
    if startRow = endRow then
      let lo := min startCol endCol
      let hi := max startCol endCol
      { s with codeLines := jsSetLine s.codeLines startRow
                 (jsSubstring (lineAt s.codeLines startRow) 0 lo ++
                  jsSubstringFrom (lineAt s.codeLines startRow) hi),
               caretRow := startRow, caretCol := lo }
    else
      { s with codeLines := jsSpliceRemove
                 (jsSetLine s.codeLines startRow
                   (jsSubstring (lineAt s.codeLines startRow) 0 startCol ++
                    jsSubstringFrom (lineAt s.codeLines endRow) endCol))
                 (startRow + 1) (endRow - startRow),
               caretRow := startRow, caretCol := startCol }
  clearHi s1

/-- One iteration of the space loop: insert one space at the caret. -/
def spaceStep (s : CoreState) : CoreState :=
  let cur := lineAt s.codeLines s.caretRow
  { s with codeLines := jsSetLine s.codeLines s.caretRow
             (jsSubstring cur 0 s.caretCol ++ [' '] ++ jsSubstringFrom cur s.caretCol),
           caretCol := s.caretCol + 1 }

/-- One iteration of the tab loop: insert one tab character at the caret. -/
def tabStep (s : CoreState) : CoreState :=
  let cur := lineAt s.codeLines s.caretRow
  { s with codeLines := jsSetLine s.codeLines s.caretRow
             (jsSubstring cur 0 s.caretCol ++ ['\t'] ++ jsSubstringFrom cur s.caretCol),
           caretCol := s.caretCol + 1 }

/-- One iteration of command-left: jump to column 0 when not already there. -/
def commandLeftStep (s : CoreState) : CoreState :=
  if 0 < s.caretCol then { s with caretCol := 0 } else s

/-- One iteration of command-right: jump to the end of the current line. -/
def commandRightStep (s : CoreState) : CoreState :=
  if s.caretCol < ((lineAt s.codeLines s.caretRow).length : Int) then
    { s with caretCol := ((lineAt s.codeLines s.caretRow).length : Int) }
  else s

/-- Shared preamble of the shift+arrow cases: set the anchor when none is active. -/
def shiftAnchor (s : CoreState) : CoreState :=
  if s.highlightStartRow = -1 then
    { s with highlightStartRow := s.caretRow, highlightStartCol := s.caretCol }
  else s

/-- One iteration of shift+arrow-left: step left, or wrap to the previous row at the
full end-of-line column (unlike the plain arrow-left wrap). -/
def shiftLeftStep (s : CoreState) : CoreState :=
  if 0 < s.caretCol then { s with caretCol := s.caretCol - 1 }
  else if 0 < s.caretRow then
    { s with caretRow := s.caretRow - 1,
             caretCol := ((lineAt s.codeLines (s.caretRow - 1)).length : Int) }
  else s

/-- One iteration of shift+arrow-right: step right within the line, else wrap to the
start of the next line. -/
def shiftRightStep (s : CoreState) : CoreState :=
  if s.caretCol < ((lineAt s.codeLines s.caretRow).length : Int) then
    { s with caretCol := s.caretCol + 1 }
  else if s.caretRow < (s.codeLines.length : Int) - 1 then
    { s with caretRow := s.caretRow + 1, caretCol := 0 }
  else s

/-- One iteration of shift+arrow-down: move down, clamping the column to the next
line's length when it is shorter. -/
def shiftDownStep (s : CoreState) : CoreState :=
  if s.caretRow < (s.codeLines.length : Int) - 1 then
    let nextLineLength := ((lineAt s.codeLines (s.caretRow + 1)).length : Int)
    if s.caretCol < nextLineLength then { s with caretRow := s.caretRow + 1 }
    else { s with caretRow := s.caretRow + 1, caretCol := nextLineLength }
  else s

/-- One iteration of shift+arrow-up: move up, clamping the column to the previous
line's length when it is shorter. -/
def shiftUpStep (s : CoreState) : CoreState :=
  if 0 < s.caretRow then
    let previousLineLength := ((lineAt s.codeLines (s.caretRow - 1)).length : Int)
    if s.caretCol < previousLineLength then { s with caretRow := s.caretRow - 1 }
    else { s with caretRow := s.caretRow - 1, caretCol := previousLineLength }
  else s

/-- Repeat count parsed once per call by the unified `applyAction`: NaN (`none`)
when a repeatable action's value does not parse. -/
def numTimesNew (a : Act) : Option Int :=
  if repeatableNamesNew.contains a.name then jsParseInt a.value else some 1

/-- Repeat count parsed once per call by the older `applyAction`. -/
def numTimesOld (a : Act) : Option Int :=
  if repeatableNamesOld.contains a.name then jsParseInt a.value else some 1

/-- Body of the unified "editor-enter" case. -/
def newEnterCase (s : CoreState) (o : Option Int) : Option CoreState :=
  if s.highlightStartRow ≠ -1 then enterHighlightNew s o
  else some (enterStep^[nIter o] s)

/-- Body of the unified "editor-enter" case with the exception path: the no-selection
loop never throws, so the only `Except.error` is `enterHighlightNewE`'s persisting
post-throw state. -/
def newEnterCaseE (s : CoreState) (o : Option Int) : Except CoreState CoreState :=
  if s.highlightStartRow ≠ -1 then enterHighlightNewE s o
  else Except.ok (enterStep^[nIter o] s)

/-- The unified enter case of the completed-call pipeline is exactly the
completed-call projection of its exception-aware form. -/
theorem newEnterCaseE_toOption (s : CoreState) (o : Option Int) :
    (newEnterCaseE s o).toOption = newEnterCase s o := by
  unfold newEnterCaseE newEnterCase enterHighlightNew
  split
  · rfl
  · rfl

/-- Body of the older "enter" case. -/
def oldEnterCase (s : CoreState) (o : Option Int) : Option CoreState :=
  if s.highlightStartRow ≠ -1 then enterHighlightOld s o
  else some (enterStep^[nIter o] s)

/-- Body of the unified "editor-type" case. -/
def newTypeCase (v : List Char) (s : CoreState) (o : Option Int) : CoreState :=
  (typeStepNew v)^[nIter o] (if s.highlightStartRow ≠ -1 then typeDeleteHighlight s else s)

/-- Body of the older "type-editor" case. -/
def oldTypeCase (v : List Char) (s : CoreState) (o : Option Int) : CoreState :=
  (typeStepOld v)^[nIter o] (if s.highlightStartRow ≠ -1 then typeDeleteHighlight s else s)

/-- Body of the backspace case (identical in both engines up to the `isSaved` reset):
a selection swallows the repeat count. -/
def backspaceCase (s : CoreState) (o : Option Int) : CoreState :=
  if s.highlightStartRow ≠ -1 then backspaceHighlight s else backspaceStep^[nIter o] s

/-- Body of the space case (identical in both engines up to the `isSaved` reset). -/
def spaceCase (s : CoreState) (o : Option Int) : CoreState :=
  spaceStep^[nIter o] (if s.highlightStartRow ≠ -1 then spaceHighlight s else s)

/-- Body of the shift+arrow cases: anchor, move, recompute the highlighted text. -/
def shiftCase (step : CoreState → CoreState) (s : CoreState) (o : Option Int) : CoreState :=
  let s1 := step^[nIter o] (shiftAnchor s)
  { s1 with currentlyHighlightedCode := calculateHighlightedText s1 }

/-- The unified engine's `applyAction` switch (OtherExamples.ts).  The source's local
bindings are inlined at their use sites: `numTimes` (parsed once per call) is
`numTimesNew a`, the pre-switch reset of `currentlyHighlightedCode` is the record
update applied in every branch, and the guarded pre-switch `currentLineLength` is the
`lineAt` length captured for the arrow-right loop.  `none` models the one reachable JS
exception (`Array(numTimes-1)` in the enter-with-selection branch). -/
def newApplyCore (s : CoreState) (a : Act) : Option CoreState :=
  if a.name = "editor-show-context-menu" then
    some { s with currentlyHighlightedCode := [], isEditorContextMenuOpen := true }
  else if a.name = "editor-hide-context-menu" then
    some { s with currentlyHighlightedCode := [], isEditorContextMenuOpen := false }
  else if a.name = "editor-enter" then
    newEnterCase { s with currentlyHighlightedCode := [], isSaved := false } (numTimesNew a)
  else if a.name = "editor-type" then
    some (newTypeCase a.value { s with currentlyHighlightedCode := [], isSaved := false }
      (numTimesNew a))
  else if a.name = "editor-arrow-down" then
    some (clearHi (arrowDownStep^[nIter (numTimesNew a)] { s with currentlyHighlightedCode := [] }))
  else if a.name = "editor-arrow-up" then
    some (clearHi (arrowUpStep^[nIter (numTimesNew a)] { s with currentlyHighlightedCode := [] }))
  else if a.name = "editor-arrow-right" then
    some (clearHi ((arrowRightStepNew ((lineAt s.codeLines s.caretRow).length : Int))^[nIter (numTimesNew a)]
      { s with currentlyHighlightedCode := [] }))
  else if a.name = "editor-arrow-left" then
    some (clearHi (arrowLeftStep^[nIter (numTimesNew a)] { s with currentlyHighlightedCode := [] }))
  else if a.name = "editor-backspace" then
    some (backspaceCase { s with currentlyHighlightedCode := [], isSaved := false } (numTimesNew a))
  else if a.name = "editor-space" then
    some (spaceCase { s with currentlyHighlightedCode := [], isSaved := false } (numTimesNew a))
  else if a.name = "editor-tab" then
    some (tabStep^[nIter (numTimesNew a)] { s with currentlyHighlightedCode := [] })
  else if a.name = "editor-command-left" then
    some (clearHi (commandLeftStep^[nIter (numTimesNew a)] { s with currentlyHighlightedCode := [] }))
  else if a.name = "editor-command-right" then
    some (clearHi (commandRightStep^[nIter (numTimesNew a)] { s with currentlyHighlightedCode := [] }))
  else if a.name = "editor-shift+arrow-left" then
    some (shiftCase shiftLeftStep { s with currentlyHighlightedCode := [] } (numTimesNew a))
  else if a.name = "editor-shift+arrow-right" then
    some (shiftCase shiftRightStep { s with currentlyHighlightedCode := [] } (numTimesNew a))
  else if a.name = "editor-shift+arrow-down" then
    some (shiftCase shiftDownStep { s with currentlyHighlightedCode := [] } (numTimesNew a))
  else if a.name = "editor-shift+arrow-up" then
    some (shiftCase shiftUpStep { s with currentlyHighlightedCode := [] } (numTimesNew a))
  else if a.name = "editor-save" then
    some { s with currentlyHighlightedCode := [], isSaved := true }
  else
    some { s with currentlyHighlightedCode := [] }

/-- The older engine's `applyAction` switch (src/src/VirtualEditor.ts), with the same
inlining conventions.  Its pre-switch `currentLineLength` read is unguarded in JS; it
is in range for every reachable state.  The speak kinds are explicit no-op cases, and
everything else unrecognized falls through to the default no-op. -/
def oldApplyCore (s : CoreState) (a : Act) : Option CoreState :=
  if a.name = "enter" then
    oldEnterCase { s with currentlyHighlightedCode := [] } (numTimesOld a)
  else if a.name = "type-editor" then
    some (oldTypeCase a.value { s with currentlyHighlightedCode := [] } (numTimesOld a))
  else if a.name = "arrow-down" then
    some (clearHi (arrowDownStep^[nIter (numTimesOld a)] { s with currentlyHighlightedCode := [] }))
  else if a.name = "arrow-up" then
    some (clearHi (arrowUpStep^[nIter (numTimesOld a)] { s with currentlyHighlightedCode := [] }))
  else if a.name = "arrow-right" then
    some (clearHi ((arrowRightStepOld ((lineAt s.codeLines s.caretRow).length : Int))^[nIter (numTimesOld a)]
      { s with currentlyHighlightedCode := [] }))
  else if a.name = "arrow-left" then
    some (clearHi (arrowLeftStep^[nIter (numTimesOld a)] { s with currentlyHighlightedCode := [] }))
  else if a.name = "backspace" then
    some (backspaceCase { s with currentlyHighlightedCode := [] } (numTimesOld a))
  else if a.name = "space" then
    some (spaceCase { s with currentlyHighlightedCode := [] } (numTimesOld a))
  else if a.name = "tab" then
    some (tabStep^[nIter (numTimesOld a)] { s with currentlyHighlightedCode := [] })
  else if a.name = "command-left" then
    some (clearHi (commandLeftStep^[nIter (numTimesOld a)] { s with currentlyHighlightedCode := [] }))
  else if a.name = "command-right" then
    some (clearHi (commandRightStep^[nIter (numTimesOld a)] { s with currentlyHighlightedCode := [] }))
  else if a.name = "shift+arrow-right" then
    some (shiftCase shiftRightStep { s with currentlyHighlightedCode := [] } (numTimesOld a))
  else if a.name = "shift+arrow-left" then
    some (shiftCase shiftLeftStep { s with currentlyHighlightedCode := [] } (numTimesOld a))
  else if a.name = "speak-before" then some { s with currentlyHighlightedCode := [] }
  else if a.name = "speak-after" then some { s with currentlyHighlightedCode := [] }
  else if a.name = "speak-during" then some { s with currentlyHighlightedCode := [] }
  else
    some { s with currentlyHighlightedCode := [] }

/-- Full state of the unified engine: the mutable core plus the index-aligned
append-only logs pushed at the end of every `applyAction`.  The
`editorActionsApplied` log (gated by the external `isEditorAction` predicate) is not
modelled: no claim reads it and it never feeds back into the dispatch. -/
structure EditorState where
  core : CoreState
  actionsApplied : List Act
  codeLinesHistory : List (List (List Char))
  caretPositionHistory : List (Int × Int)
  highlightStartPositionHistory : List (Int × Int)
  highlightHistory : List (List (List Char))
deriving DecidableEq

/-- The unconditional recording tail of the unified `applyAction`: push the action and
one copied snapshot per log. -/
def recordStep (s : EditorState) (a : Act) (c : CoreState) : EditorState :=
  { core := c,
    actionsApplied := s.actionsApplied ++ [a],
    codeLinesHistory := s.codeLinesHistory ++ [c.codeLines],
    caretPositionHistory := s.caretPositionHistory ++ [(c.caretRow, c.caretCol)],
    highlightStartPositionHistory := s.highlightStartPositionHistory ++
      [(if c.highlightStartRow = -1 then -1 else c.highlightStartRow,
        if c.highlightStartCol = -1 then -1 else c.highlightStartCol)],
    highlightHistory := s.highlightHistory ++
      [if c.currentlyHighlightedCode = [] then [([] : List Char)]
       else [c.currentlyHighlightedCode]] }

/-- The unified engine's `applyAction`: run the switch, then record; a thrown JS
exception (`none`) aborts the call before anything is recorded. -/
def applyAction (s : EditorState) (a : Act) : Option EditorState :=
  match newApplyCore s.core a with
  | none => none
  | some c => some (recordStep s a c)

/-- The unified engine's `applyActions`: apply in order; an exception propagates out of
the `forEach`, so `none` is returned as soon as one action throws. -/
def applyActions : EditorState → List Act → Option EditorState
  | s, [] => some s
  | s, a :: rest =>
    match applyAction s a with
    | none => none
    | some s' => applyActions s' rest

/-- Constructor normalization: an empty initial-lines array becomes one empty line. -/
def normalizeInitial (lines : List (List Char)) : List (List Char) :=
  if lines = [] then [[]] else lines

/-- Core produced by the unified constructor: caret (0,0), no highlight. -/
def initCore (lines : List (List Char)) : CoreState :=
  { caretRow := 0, caretCol := 0, highlightStartRow := -1, highlightStartCol := -1,
    codeLines := normalizeInitial lines, currentlyHighlightedCode := [],
    isSaved := false, isEditorContextMenuOpen := false }

/-- Core produced by the older constructor: its highlight fields are initialized to 0,
not to the -1 sentinel. -/
def oldInitCore (lines : List (List Char)) : CoreState :=
  { caretRow := 0, caretCol := 0, highlightStartRow := 0, highlightStartCol := 0,
    codeLines := normalizeInitial lines, currentlyHighlightedCode := [],
    isSaved := false, isEditorContextMenuOpen := false }

/-- The unified constructor without an action list: the synthetic index-0 entry seeds
every log. -/
def mkEditor (lines : List (List Char)) : EditorState :=
  let l := normalizeInitial lines
  { core := initCore lines,
    actionsApplied := [⟨"editor-type", if l.length = 1 then l.headD [] else joinLines l⟩],
    codeLinesHistory := [l],
    caretPositionHistory := [(0, 0)],
    highlightStartPositionHistory := [(-1, -1)],
    highlightHistory := [[([] : List Char)]] }

/-- Fold of the older engine's switch over an action list (buffer/caret behavior; its
log recording never feeds back into the switch and is not needed by any claim). -/
def oldApplyCores : CoreState → List Act → Option CoreState
  | s, [] => some s
  | s, a :: rest =>
    match oldApplyCore s a with
    | none => none
    | some s' => oldApplyCores s' rest

/-- Core-level fold of the unified engine's switch over an action list. -/
def newApplyCores : CoreState → List Act → Option CoreState
  | s, [] => some s
  | s, a :: rest =>
    match newApplyCore s a with
    | none => none
    | some s' => newApplyCores s' rest

/-- Accessor `getCode()`: the line-break-joined buffer. -/
def getCodeCore (c : CoreState) : List Char :=
  joinLines c.codeLines

/-- Accessor `getCodeLines()`. -/
def getCodeLines (s : EditorState) : List (List Char) :=
  s.core.codeLines

/-- Accessor `getIsSaved()` of the unified engine. -/
def getIsSaved (s : EditorState) : Bool :=
  s.core.isSaved

/-- Accessor `getCurrentHighlightedCode()`. -/
def getCurrentHighlightedCode (s : EditorState) : List Char :=
  s.core.currentlyHighlightedCode

/-- Unified accessor `getCurrentCaretPosition()`: the PHYSICAL caret, `(row+1, col+1)`. -/
def getCurrentCaretPosition (s : EditorState) : Int × Int :=
  (s.core.caretRow + 1, s.core.caretCol + 1)

/-- Older accessor `getCurrentCaretPosition()`: the raw 0-indexed caret. -/
def oldGetCurrentCaretPosition (c : CoreState) : Int × Int :=
  (c.caretRow, c.caretCol)

/-- Accessor `getCodeAtActionIndex(i)`: joined snapshot at a recorded index; `none`
models the out-of-bounds error. -/
def getCodeAtActionIndex (s : EditorState) (i : Nat) : Option (List Char) :=
  if s.codeLinesHistory.length - 1 < i then none
  else some (joinLines (s.codeLinesHistory.getD i []))

/-- Accessor `getHighlightedCodeAtActionIndex(i)`. -/
def getHighlightedCodeAtActionIndex (s : EditorState) (i : Nat) : Option (List Char) :=
  if s.highlightHistory.length - 1 < i then none
  else some (joinLines (s.highlightHistory.getD i []))

/-- Engine states reached by a constructor call followed by completed `applyAction`
calls (constructor-supplied actions apply through the same `applyActions`, so they
are covered).  A throwing `applyAction` call leaves one further persisting state —
the `Except.error` of the enter-with-selection path, with nothing recorded — which
is deliberately outside this predicate; the exception-aware
`enterHighlightNewE`/`enterHighlightOldE` and `newEnterCaseE` expose those states. -/
inductive Reachable : EditorState → Prop where
  | init : ∀ lines, Reachable (mkEditor lines)
  | step : ∀ s a s', Reachable s → applyAction s a = some s' → Reachable s'

/-! Length lemmas for the JS primitives. -/

theorem length_jsSetLine (l : List (List Char)) (i : Int) (x : List Char) :
    (jsSetLine l i x).length = l.length := by
  unfold jsSetLine
  split <;> simp

theorem jsClampIndex_le (n : Nat) (start : Int) : jsClampIndex n start ≤ n := by
  unfold jsClampIndex
  split <;> omega

theorem jsClampIndex_of_nonneg {n : Nat} {start : Int} (h0 : 0 ≤ start)
    (h1 : start ≤ (n : Int)) : (jsClampIndex n start : Int) = start := by
  unfold jsClampIndex
  rw [if_neg (by omega)]
  omega

theorem length_jsSpliceInsert (l : List α) (p : Int) (items : List α) :
    (jsSpliceInsert l p items).length = l.length + items.length := by
  have h := jsClampIndex_le l.length p
  unfold jsSpliceInsert
  simp only [List.length_append, List.length_take, List.length_drop]
  omega

theorem length_jsSpliceRemove_of_nonneg (l : List α) {p : Int} (d : Int)
    (h0 : 0 ≤ p) (hp : p ≤ (l.length : Int)) :
    ((jsSpliceRemove l p d).length : Int) =
      (l.length : Int) - max 0 (min d ((l.length : Int) - p)) := by
  have hc := jsClampIndex_of_nonneg h0 hp
  have hc' := jsClampIndex_le l.length p
  unfold jsSpliceRemove
  simp only [List.length_append, List.length_take, List.length_drop]
  omega

/-! Iteration helpers for the `for (let i = 0; i < numTimes; i++)` loops. -/

theorem iterate_pres {α} {f : α → α} {P : α → Prop} (h : ∀ s, P s → P (f s)) :
    ∀ (n : Nat) (s : α), P s → P (f^[n] s) := by
  intro n
  induction n with
  | zero => intro s hs; exact hs
  | succ k ih =>
    intro s hs
    exact ih (f s) (h s hs)

theorem iterate_proj {α β} {f : α → α} {g : α → β} (h : ∀ s, g (f s) = g s) :
    ∀ (n : Nat) (s : α), g (f^[n] s) = g s := by
  intro n
  induction n with
  | zero => intro s; rfl
  | succ k ih =>
    intro s
    exact (ih (f s)).trans (h s)

/-- Reachability invariant on the mutable core: at least one buffer line, caret row in
range, and a highlight anchor row that is either the -1 sentinel or in range. -/
def CoreInv (c : CoreState) : Prop :=
  0 < (c.codeLines.length : Int) ∧ 0 ≤ c.caretRow ∧ c.caretRow < (c.codeLines.length : Int) ∧
  (c.highlightStartRow = -1 ∨
    (0 ≤ c.highlightStartRow ∧ c.highlightStartRow < (c.codeLines.length : Int)))

theorem coreInv_clearHi {s : CoreState} (h : CoreInv s) : CoreInv (clearHi s) := by
  obtain ⟨h1, h2, h3, _⟩ := h
  exact ⟨h1, h2, h3, Or.inl rfl⟩

theorem coreInv_enterStep {s : CoreState} (h : CoreInv s) : CoreInv (enterStep s) := by
  obtain ⟨h1, h2, h3, h4⟩ := h
  unfold CoreInv enterStep
  simp only [length_jsSpliceInsert, length_jsSetLine, List.length_singleton]
  omega

theorem coreInv_typeStepOld {v : List Char} {s : CoreState} (h : CoreInv s) :
    CoreInv (typeStepOld v s) := by
  obtain ⟨h1, h2, h3, h4⟩ := h
  unfold CoreInv typeStepOld
  simp only [length_jsSetLine]
  omega

theorem coreInv_typeInsertRest {restOfLine : List Char} :
    ∀ (segs : List (List Char)) (s : CoreState), CoreInv s → CoreInv (typeInsertRest restOfLine segs s)
  | [], s, h => h
  | [lastSeg], s, h => by
    obtain ⟨h1, h2, h3, h4⟩ := h
    unfold CoreInv typeInsertRest
    simp only [length_jsSpliceInsert, List.length_singleton]
    omega
  | seg :: next :: t, s, h => by
    obtain ⟨h1, h2, h3, h4⟩ := h
    refine coreInv_typeInsertRest (next :: t) _ ?_
    unfold CoreInv
    simp only [length_jsSpliceInsert, List.length_singleton]
    omega

theorem coreInv_typeStepNew {v : List Char} {s : CoreState} (h : CoreInv s) :
    CoreInv (typeStepNew v s) := by
  obtain ⟨h1, h2, h3, h4⟩ := h
  unfold typeStepNew
  split
  · exact ⟨h1, h2, h3, h4⟩
  · unfold CoreInv
    simp only [length_jsSetLine]
    omega
  · refine coreInv_typeInsertRest _ _ ?_
    unfold CoreInv
    simp only [length_jsSetLine]
    omega

theorem coreInv_arrowDownStep {s : CoreState} (h : CoreInv s) : CoreInv (arrowDownStep s) := by
  obtain ⟨h1, h2, h3, h4⟩ := h
  unfold CoreInv arrowDownStep
  try dsimp only
  split
  all_goals try dsimp only
  all_goals try split
  all_goals try dsimp only
  all_goals omega

theorem coreInv_arrowUpStep {s : CoreState} (h : CoreInv s) : CoreInv (arrowUpStep s) := by
  obtain ⟨h1, h2, h3, h4⟩ := h
  unfold CoreInv arrowUpStep
  try dsimp only
  split
  all_goals try dsimp only
  all_goals try split
  all_goals try dsimp only
  all_goals omega

theorem coreInv_arrowRightStepNew {k : Int} {s : CoreState} (h : CoreInv s) :
    CoreInv (arrowRightStepNew k s) := by
  obtain ⟨h1, h2, h3, h4⟩ := h
  unfold CoreInv arrowRightStepNew
  try dsimp only
  split
  all_goals try dsimp only
  all_goals try split
  all_goals try dsimp only
  all_goals omega

theorem coreInv_arrowRightStepOld {k : Int} {s : CoreState} (h : CoreInv s) :
    CoreInv (arrowRightStepOld k s) := by
  obtain ⟨h1, h2, h3, h4⟩ := h
  unfold CoreInv arrowRightStepOld
  try dsimp only
  split
  all_goals try dsimp only
  all_goals try split
  all_goals try dsimp only
  all_goals omega

theorem coreInv_arrowLeftStep {s : CoreState} (h : CoreInv s) : CoreInv (arrowLeftStep s) := by
  obtain ⟨h1, h2, h3, h4⟩ := h
  unfold CoreInv arrowLeftStep
  try dsimp only
  split
  all_goals try dsimp only
  all_goals try split
  all_goals try dsimp only
  all_goals omega

theorem coreInv_spaceStep {s : CoreState} (h : CoreInv s) : CoreInv (spaceStep s) := by
  obtain ⟨h1, h2, h3, h4⟩ := h
  unfold CoreInv spaceStep
  simp only [length_jsSetLine]
  omega

theorem coreInv_tabStep {s : CoreState} (h : CoreInv s) : CoreInv (tabStep s) := by
  obtain ⟨h1, h2, h3, h4⟩ := h
  unfold CoreInv tabStep
  simp only [length_jsSetLine]
  omega

theorem coreInv_commandLeftStep {s : CoreState} (h : CoreInv s) : CoreInv (commandLeftStep s) := by
  obtain ⟨h1, h2, h3, h4⟩ := h
  unfold CoreInv commandLeftStep
  try dsimp only
  split
  all_goals try dsimp only
  all_goals try split
  all_goals try dsimp only
  all_goals omega

theorem coreInv_commandRightStep {s : CoreState} (h : CoreInv s) : CoreInv (commandRightStep s) := by
  obtain ⟨h1, h2, h3, h4⟩ := h
  unfold CoreInv commandRightStep
  try dsimp only
  split
  all_goals try dsimp only
  all_goals try split
  all_goals try dsimp only
  all_goals omega

theorem coreInv_shiftAnchor {s : CoreState} (h : CoreInv s) : CoreInv (shiftAnchor s) := by
  obtain ⟨h1, h2, h3, h4⟩ := h
  unfold CoreInv shiftAnchor
  try dsimp only
  split
  all_goals try dsimp only
  all_goals try split
  all_goals try dsimp only
  all_goals omega

theorem coreInv_shiftLeftStep {s : CoreState} (h : CoreInv s) : CoreInv (shiftLeftStep s) := by
  obtain ⟨h1, h2, h3, h4⟩ := h
  unfold CoreInv shiftLeftStep
  try dsimp only
  split
  all_goals try dsimp only
  all_goals try split
  all_goals try dsimp only
  all_goals omega

theorem coreInv_shiftRightStep {s : CoreState} (h : CoreInv s) : CoreInv (shiftRightStep s) := by
  obtain ⟨h1, h2, h3, h4⟩ := h
  unfold CoreInv shiftRightStep
  try dsimp only
  split
  all_goals try dsimp only
  all_goals try split
  all_goals try dsimp only
  all_goals omega

theorem coreInv_shiftDownStep {s : CoreState} (h : CoreInv s) : CoreInv (shiftDownStep s) := by
  obtain ⟨h1, h2, h3, h4⟩ := h
  unfold CoreInv shiftDownStep
  try dsimp only
  split
  all_goals try dsimp only
  all_goals try split
  all_goals try dsimp only
  all_goals omega

theorem coreInv_shiftUpStep {s : CoreState} (h : CoreInv s) : CoreInv (shiftUpStep s) := by
  obtain ⟨h1, h2, h3, h4⟩ := h
  unfold CoreInv shiftUpStep
  try dsimp only
  split
  all_goals try dsimp only
  all_goals try split
  all_goals try dsimp only
  all_goals omega

theorem coreInv_backspaceStep {s : CoreState} (h : CoreInv s ∧ s.highlightStartRow = -1) :
    CoreInv (backspaceStep s) ∧ (backspaceStep s).highlightStartRow = -1 := by
  obtain ⟨⟨h1, h2, h3, _⟩, hh⟩ := h
  unfold CoreInv backspaceStep
  split
  · simp only [length_jsSetLine]
    omega
  · split
    · rename_i hc hr
      have hlen : ((jsSpliceRemove
          (jsSetLine s.codeLines (s.caretRow - 1)
            (lineAt s.codeLines (s.caretRow - 1) ++ lineAt s.codeLines s.caretRow))
          s.caretRow 1).length : Int) =
          ((jsSetLine s.codeLines (s.caretRow - 1)
            (lineAt s.codeLines (s.caretRow - 1) ++ lineAt s.codeLines s.caretRow)).length : Int) -
          max 0 (min 1 (((jsSetLine s.codeLines (s.caretRow - 1)
            (lineAt s.codeLines (s.caretRow - 1) ++ lineAt s.codeLines s.caretRow)).length : Int) -
            s.caretRow)) := by
        refine length_jsSpliceRemove_of_nonneg _ _ (by omega) ?_
        rw [length_jsSetLine]
        omega
      rw [length_jsSetLine] at hlen
      simp only [hlen]
      omega
    · omega

/-! Length lemmas for the selection-deletion shape shared by the highlight branches. -/

theorem length_setRemove {l : List (List Char)} {sR eR : Int} {x : List Char}
    (h0 : 0 ≤ sR) (h1 : sR < (l.length : Int)) (h2 : eR < (l.length : Int)) :
    (jsSpliceRemove (jsSetLine l sR x) (sR + 1) (eR - sR)).length =
      l.length - (eR - sR).toNat := by
  have hl : (jsSetLine l sR x).length = l.length := length_jsSetLine l sR x
  have h := length_jsSpliceRemove_of_nonneg (jsSetLine l sR x) (eR - sR)
    (p := sR + 1) (by omega) (by rw [hl]; omega)
  rw [hl] at h
  omega

theorem coreInv_typeDeleteHighlight {s : CoreState} (h : CoreInv s)
    (hh : s.highlightStartRow ≠ -1) : CoreInv (typeDeleteHighlight s) := by
  obtain ⟨h1, h2, h3, h4⟩ := h
  have hhr : 0 ≤ s.highlightStartRow ∧ s.highlightStartRow < (s.codeLines.length : Int) := by
    rcases h4 with h4 | h4
    · exact absurd h4 hh
    · exact h4
  unfold CoreInv typeDeleteHighlight
  try dsimp only
  split
  all_goals try dsimp only
  · rw [length_jsSetLine]
    exact ⟨by omega, by omega, by omega, Or.inl (by simp)⟩
  · rw [length_setRemove (by omega) (by omega) (by omega)]
    exact ⟨by omega, by omega, by omega, Or.inl (by simp)⟩

theorem coreInv_backspaceHighlight {s : CoreState} (h : CoreInv s)
    (hh : s.highlightStartRow ≠ -1) : CoreInv (backspaceHighlight s) := by
  obtain ⟨h1, h2, h3, h4⟩ := h
  have hhr : 0 ≤ s.highlightStartRow ∧ s.highlightStartRow < (s.codeLines.length : Int) := by
    rcases h4 with h4 | h4
    · exact absurd h4 hh
    · exact h4
  unfold CoreInv backspaceHighlight clearHi
  try dsimp only
  split
  all_goals try dsimp only
  · rw [length_jsSetLine]
    exact ⟨by omega, by omega, by omega, Or.inl (by simp)⟩
  · rw [length_setRemove (by omega) (by omega) (by omega)]
    exact ⟨by omega, by omega, by omega, Or.inl (by simp)⟩

theorem coreInv_spaceHighlight {s : CoreState} (h : CoreInv s)
    (hh : s.highlightStartRow ≠ -1) : CoreInv (spaceHighlight s) := by
  obtain ⟨h1, h2, h3, h4⟩ := h
  have hhr : 0 ≤ s.highlightStartRow ∧ s.highlightStartRow < (s.codeLines.length : Int) := by
    rcases h4 with h4 | h4
    · exact absurd h4 hh
    · exact h4
  unfold CoreInv spaceHighlight clearHi
  try dsimp only
  split
  all_goals try dsimp only
  · rw [length_jsSetLine]
    exact ⟨by omega, by omega, by omega, Or.inl (by simp)⟩
  · rw [length_setRemove (by omega) (by omega) (by omega)]
    exact ⟨by omega, by omega, by omega, Or.inl (by simp)⟩

theorem coreInv_enterHighlightNew {s c' : CoreState} {o : Option Int} (h : CoreInv s)
    (hh : s.highlightStartRow ≠ -1) (he : enterHighlightNew s o = some c') : CoreInv c' := by
  obtain ⟨h1, h2, h3, h4⟩ := h
  have hhr : 0 ≤ s.highlightStartRow ∧ s.highlightStartRow < (s.codeLines.length : Int) := by
    rcases h4 with h4 | h4
    · exact absurd h4 hh
    · exact h4
  unfold enterHighlightNew enterHighlightNewE at he
  cases o with
  | none => exact absurd he (by simp [Except.toOption])
  | some n =>
    dsimp only at he
    by_cases hn : n - 1 < 0 ∨ 4294967296 ≤ n - 1
    · rw [if_pos hn] at he
      exact absurd he (by simp [Except.toOption])
    · rw [if_neg hn] at he
      simp only [Except.toOption] at he
      rw [Option.some.injEq] at he
      subst he
      by_cases hfwd : (s.highlightStartRow < s.caretRow ∨
          (s.highlightStartRow = s.caretRow ∧ s.highlightStartCol ≤ s.caretCol))
      · simp only [if_pos hfwd]
        unfold CoreInv
        try dsimp only
        by_cases hlt : s.highlightStartRow < s.caretRow
        · rw [if_pos hlt, length_jsSpliceInsert,
            length_setRemove (by omega) (by omega) (by omega)]
          simp only [List.length_append, List.length_replicate, List.length_cons,
            List.length_nil]
          exact ⟨by omega, by omega, by omega, Or.inl (by simp)⟩
        · rw [if_neg hlt, length_jsSpliceInsert, length_jsSetLine]
          simp only [List.length_append, List.length_replicate, List.length_cons,
            List.length_nil]
          exact ⟨by omega, by omega, by omega, Or.inl (by simp)⟩
      · simp only [if_neg hfwd]
        unfold CoreInv
        try dsimp only
        have hsr : s.caretRow ≤ s.highlightStartRow := by omega
        by_cases hlt : s.caretRow < s.highlightStartRow
        · rw [if_pos hlt, length_jsSpliceInsert,
            length_setRemove (by omega) (by omega) (by omega)]
          simp only [List.length_append, List.length_replicate, List.length_cons,
            List.length_nil]
          exact ⟨by omega, by omega, by omega, Or.inl (by simp)⟩
        · rw [if_neg hlt, length_jsSpliceInsert, length_jsSetLine]
          simp only [List.length_append, List.length_replicate, List.length_cons,
            List.length_nil]
          exact ⟨by omega, by omega, by omega, Or.inl (by simp)⟩

theorem coreInv_enterHighlightOld {s c' : CoreState} {o : Option Int} (h : CoreInv s)
    (hh : s.highlightStartRow ≠ -1) (he : enterHighlightOld s o = some c') : CoreInv c' := by
  obtain ⟨h1, h2, h3, h4⟩ := h
  have hhr : 0 ≤ s.highlightStartRow ∧ s.highlightStartRow < (s.codeLines.length : Int) := by
    rcases h4 with h4 | h4
    · exact absurd h4 hh
    · exact h4
  unfold enterHighlightOld enterHighlightOldE at he
  cases o with
  | none => exact absurd he (by simp [Except.toOption])
  | some n =>
    dsimp only at he
    by_cases hn : n < 0 ∨ 4294967296 ≤ n
    · rw [if_pos hn] at he
      exact absurd he (by simp [Except.toOption])
    · rw [if_neg hn] at he
      simp only [Except.toOption] at he
      rw [Option.some.injEq] at he
      subst he
      by_cases hfwd : (s.highlightStartRow < s.caretRow ∨
          (s.highlightStartRow = s.caretRow ∧ s.highlightStartCol ≤ s.caretCol))
      · simp only [if_pos hfwd]
        unfold CoreInv
        try dsimp only
        by_cases hlt : s.highlightStartRow < s.caretRow
        · rw [if_pos hlt]
          split
          all_goals rw [length_jsSpliceInsert,
            length_setRemove (by omega) (by omega) (by omega)]
          all_goals simp only [List.length_append, List.length_replicate,
            List.length_cons, List.length_nil]
          all_goals exact ⟨by omega, by omega, by omega, Or.inl (by simp)⟩
        · rw [if_neg hlt]
          split
          all_goals rw [length_jsSpliceInsert, length_jsSetLine]
          all_goals simp only [List.length_append, List.length_replicate,
            List.length_cons, List.length_nil]
          all_goals exact ⟨by omega, by omega, by omega, Or.inl (by simp)⟩
      · simp only [if_neg hfwd]
        unfold CoreInv
        try dsimp only
        have hsr : s.caretRow ≤ s.highlightStartRow := by omega
        by_cases hlt : s.caretRow < s.highlightStartRow
        · rw [if_pos hlt]
          split
          all_goals rw [length_jsSpliceInsert,
            length_setRemove (by omega) (by omega) (by omega)]
          all_goals simp only [List.length_append, List.length_replicate,
            List.length_cons, List.length_nil]
          all_goals exact ⟨by omega, by omega, by omega, Or.inl (by simp)⟩
        · rw [if_neg hlt]
          split
          all_goals rw [length_jsSpliceInsert, length_jsSetLine]
          all_goals simp only [List.length_append, List.length_replicate,
            List.length_cons, List.length_nil]
          all_goals exact ⟨by omega, by omega, by omega, Or.inl (by simp)⟩

theorem coreInv_update {s : CoreState} (h : CoreInv s) {x : List Char} :
    CoreInv { s with currentlyHighlightedCode := x } :=
  ⟨h.1, h.2.1, h.2.2.1, h.2.2.2⟩

theorem coreInv_update2 {s : CoreState} (h : CoreInv s) {x : List Char} {b : Bool} :
    CoreInv { s with currentlyHighlightedCode := x, isSaved := b } :=
  ⟨h.1, h.2.1, h.2.2.1, h.2.2.2⟩

theorem coreInv_newEnterCase {s c' : CoreState} {o : Option Int} (h : CoreInv s)
    (he : newEnterCase s o = some c') : CoreInv c' := by
  unfold newEnterCase at he
  split_ifs at he with hh
  · exact coreInv_enterHighlightNew h hh he
  · rw [Option.some.injEq] at he
    subst he
    exact iterate_pres (fun _ hx => coreInv_enterStep hx) _ _ h

theorem coreInv_oldEnterCase {s c' : CoreState} {o : Option Int} (h : CoreInv s)
    (he : oldEnterCase s o = some c') : CoreInv c' := by
  unfold oldEnterCase at he
  split_ifs at he with hh
  · exact coreInv_enterHighlightOld h hh he
  · rw [Option.some.injEq] at he
    subst he
    exact iterate_pres (fun _ hx => coreInv_enterStep hx) _ _ h

theorem coreInv_newTypeCase {v : List Char} {s : CoreState} {o : Option Int}
    (h : CoreInv s) : CoreInv (newTypeCase v s o) := by
  unfold newTypeCase
  split_ifs with hh
  · exact iterate_pres (fun _ hx => coreInv_typeStepNew hx) _ _
      (coreInv_typeDeleteHighlight h hh)
  · exact iterate_pres (fun _ hx => coreInv_typeStepNew hx) _ _ h

theorem coreInv_oldTypeCase {v : List Char} {s : CoreState} {o : Option Int}
    (h : CoreInv s) : CoreInv (oldTypeCase v s o) := by
  unfold oldTypeCase
  split_ifs with hh
  · exact iterate_pres (fun _ hx => coreInv_typeStepOld hx) _ _
      (coreInv_typeDeleteHighlight h hh)
  · exact iterate_pres (fun _ hx => coreInv_typeStepOld hx) _ _ h

theorem coreInv_backspaceCase {s : CoreState} {o : Option Int} (h : CoreInv s) :
    CoreInv (backspaceCase s o) := by
  unfold backspaceCase
  split_ifs with hh
  · exact coreInv_backspaceHighlight h hh
  · exact (iterate_pres (P := fun c => CoreInv c ∧ c.highlightStartRow = -1)
      (fun _ hx => coreInv_backspaceStep hx) _ _ ⟨h, by omega⟩).1

theorem coreInv_spaceCase {s : CoreState} {o : Option Int} (h : CoreInv s) :
    CoreInv (spaceCase s o) := by
  unfold spaceCase
  split_ifs with hh
  · exact iterate_pres (fun _ hx => coreInv_spaceStep hx) _ _ (coreInv_spaceHighlight h hh)
  · exact iterate_pres (fun _ hx => coreInv_spaceStep hx) _ _ h

theorem coreInv_shiftCase {step : CoreState → CoreState}
    (hstep : ∀ s, CoreInv s → CoreInv (step s)) {s : CoreState} {o : Option Int}
    (h : CoreInv s) : CoreInv (shiftCase step s o) := by
  unfold shiftCase
  try dsimp only
  have K := iterate_pres hstep (nIter o) _ (coreInv_shiftAnchor h)
  exact ⟨K.1, K.2.1, K.2.2.1, K.2.2.2⟩

/-- The unified switch preserves the core invariant on every completed call. -/
theorem coreInv_newApplyCore {s0 c' : CoreState} {a : Act} (h : CoreInv s0)
    (he : newApplyCore s0 a = some c') : CoreInv c' := by
  unfold newApplyCore at he
  by_cases e1 : a.name = "editor-show-context-menu"
  · rw [if_pos e1] at he
    rw [Option.some.injEq] at he
    subst he
    exact ⟨h.1, h.2.1, h.2.2.1, h.2.2.2⟩
  rw [if_neg e1] at he
  by_cases e2 : a.name = "editor-hide-context-menu"
  · rw [if_pos e2] at he
    rw [Option.some.injEq] at he
    subst he
    exact ⟨h.1, h.2.1, h.2.2.1, h.2.2.2⟩
  rw [if_neg e2] at he
  by_cases e3 : a.name = "editor-enter"
  · rw [if_pos e3] at he
    exact coreInv_newEnterCase (coreInv_update2 h) he
  rw [if_neg e3] at he
  by_cases e4 : a.name = "editor-type"
  · rw [if_pos e4] at he
    rw [Option.some.injEq] at he
    subst he
    exact coreInv_newTypeCase (coreInv_update2 h)
  rw [if_neg e4] at he
  by_cases e5 : a.name = "editor-arrow-down"
  · rw [if_pos e5] at he
    rw [Option.some.injEq] at he
    subst he
    exact coreInv_clearHi (iterate_pres (fun _ hx => coreInv_arrowDownStep hx) _ _ (coreInv_update h))
  rw [if_neg e5] at he
  by_cases e6 : a.name = "editor-arrow-up"
  · rw [if_pos e6] at he
    rw [Option.some.injEq] at he
    subst he
    exact coreInv_clearHi (iterate_pres (fun _ hx => coreInv_arrowUpStep hx) _ _ (coreInv_update h))
  rw [if_neg e6] at he
  by_cases e7 : a.name = "editor-arrow-right"
  · rw [if_pos e7] at he
    rw [Option.some.injEq] at he
    subst he
    exact coreInv_clearHi (iterate_pres (fun _ hx => coreInv_arrowRightStepNew hx) _ _ (coreInv_update h))
  rw [if_neg e7] at he
  by_cases e8 : a.name = "editor-arrow-left"
  · rw [if_pos e8] at he
    rw [Option.some.injEq] at he
    subst he
    exact coreInv_clearHi (iterate_pres (fun _ hx => coreInv_arrowLeftStep hx) _ _ (coreInv_update h))
  rw [if_neg e8] at he
  by_cases e9 : a.name = "editor-backspace"
  · rw [if_pos e9] at he
    rw [Option.some.injEq] at he
    subst he
    exact coreInv_backspaceCase (coreInv_update2 h)
  rw [if_neg e9] at he
  by_cases e10 : a.name = "editor-space"
  · rw [if_pos e10] at he
    rw [Option.some.injEq] at he
    subst he
    exact coreInv_spaceCase (coreInv_update2 h)
  rw [if_neg e10] at he
  by_cases e11 : a.name = "editor-tab"
  · rw [if_pos e11] at he
    rw [Option.some.injEq] at he
    subst he
    exact iterate_pres (fun _ hx => coreInv_tabStep hx) _ _ (coreInv_update h)
  rw [if_neg e11] at he
  by_cases e12 : a.name = "editor-command-left"
  · rw [if_pos e12] at he
    rw [Option.some.injEq] at he
    subst he
    exact coreInv_clearHi (iterate_pres (fun _ hx => coreInv_commandLeftStep hx) _ _ (coreInv_update h))
  rw [if_neg e12] at he
  by_cases e13 : a.name = "editor-command-right"
  · rw [if_pos e13] at he
    rw [Option.some.injEq] at he
    subst he
    exact coreInv_clearHi (iterate_pres (fun _ hx => coreInv_commandRightStep hx) _ _ (coreInv_update h))
  rw [if_neg e13] at he
  by_cases e14 : a.name = "editor-shift+arrow-left"
  · rw [if_pos e14] at he
    rw [Option.some.injEq] at he
    subst he
    exact coreInv_shiftCase (fun _ hx => coreInv_shiftLeftStep hx) (coreInv_update h)
  rw [if_neg e14] at he
  by_cases e15 : a.name = "editor-shift+arrow-right"
  · rw [if_pos e15] at he
    rw [Option.some.injEq] at he
    subst he
    exact coreInv_shiftCase (fun _ hx => coreInv_shiftRightStep hx) (coreInv_update h)
  rw [if_neg e15] at he
  by_cases e16 : a.name = "editor-shift+arrow-down"
  · rw [if_pos e16] at he
    rw [Option.some.injEq] at he
    subst he
    exact coreInv_shiftCase (fun _ hx => coreInv_shiftDownStep hx) (coreInv_update h)
  rw [if_neg e16] at he
  by_cases e17 : a.name = "editor-shift+arrow-up"
  · rw [if_pos e17] at he
    rw [Option.some.injEq] at he
    subst he
    exact coreInv_shiftCase (fun _ hx => coreInv_shiftUpStep hx) (coreInv_update h)
  rw [if_neg e17] at he
  by_cases e18 : a.name = "editor-save"
  · rw [if_pos e18] at he
    rw [Option.some.injEq] at he
    subst he
    exact ⟨h.1, h.2.1, h.2.2.1, h.2.2.2⟩
  rw [if_neg e18] at he
  rw [Option.some.injEq] at he
  subst he
  exact ⟨h.1, h.2.1, h.2.2.1, h.2.2.2⟩

/-- The constructor establishes the core invariant. -/
theorem coreInv_initCore (lines : List (List Char)) : CoreInv (initCore lines) := by
  unfold CoreInv initCore normalizeInitial
  try dsimp only
  split
  · exact ⟨by simp, by omega, by simp, Or.inl rfl⟩
  · rename_i hne
    have hlen : lines.length ≠ 0 := fun hz => hne (List.length_eq_zero.mp hz)
    exact ⟨by omega, by omega, by omega, Or.inl rfl⟩

/-- Every reachable engine state satisfies the core invariant. -/
theorem reachable_coreInv {s : EditorState} (h : Reachable s) : CoreInv s.core := by
  induction h with
  | init lines => exact coreInv_initCore lines
  | step s a s' _ he ih =>
    unfold applyAction at he
    cases hc : newApplyCore s.core a with
    | none => rw [hc] at he; exact absurd he (by simp)
    | some c =>
      rw [hc] at he
      rw [Option.some.injEq] at he
      subst he
      exact coreInv_newApplyCore ih hc

/-! Dispatch equations: one per action kind, each a definitional consequence of the
switch. -/
theorem newApplyCoreShowMenu (s : CoreState) (v : List Char) :
    newApplyCore s ⟨"editor-show-context-menu", v⟩ =
      some { s with currentlyHighlightedCode := [], isEditorContextMenuOpen := true } := rfl
theorem newApplyCoreHideMenu (s : CoreState) (v : List Char) :
    newApplyCore s ⟨"editor-hide-context-menu", v⟩ =
      some { s with currentlyHighlightedCode := [], isEditorContextMenuOpen := false } := rfl
theorem newApplyCoreEnter (s : CoreState) (v : List Char) :
    newApplyCore s ⟨"editor-enter", v⟩ =
      newEnterCase { s with currentlyHighlightedCode := [], isSaved := false } (jsParseInt v) := rfl
theorem newApplyCoreType (s : CoreState) (v : List Char) :
    newApplyCore s ⟨"editor-type", v⟩ =
      some (newTypeCase v { s with currentlyHighlightedCode := [], isSaved := false } (some 1)) := rfl
theorem newApplyCoreArrowDown (s : CoreState) (v : List Char) :
    newApplyCore s ⟨"editor-arrow-down", v⟩ =
      some (clearHi (arrowDownStep^[nIter (jsParseInt v)] { s with currentlyHighlightedCode := [] })) := rfl
theorem newApplyCoreArrowUp (s : CoreState) (v : List Char) :
    newApplyCore s ⟨"editor-arrow-up", v⟩ =
      some (clearHi (arrowUpStep^[nIter (jsParseInt v)] { s with currentlyHighlightedCode := [] })) := rfl
theorem newApplyCoreArrowRight (s : CoreState) (v : List Char) :
    newApplyCore s ⟨"editor-arrow-right", v⟩ =
      some (clearHi ((arrowRightStepNew ((lineAt s.codeLines s.caretRow).length : Int))^[nIter (jsParseInt v)] { s with currentlyHighlightedCode := [] })) := rfl
theorem newApplyCoreArrowLeft (s : CoreState) (v : List Char) :
    newApplyCore s ⟨"editor-arrow-left", v⟩ =
      some (clearHi (arrowLeftStep^[nIter (jsParseInt v)] { s with currentlyHighlightedCode := [] })) := rfl
theorem newApplyCoreBackspace (s : CoreState) (v : List Char) :
    newApplyCore s ⟨"editor-backspace", v⟩ =
      some (backspaceCase { s with currentlyHighlightedCode := [], isSaved := false } (jsParseInt v)) := rfl
theorem newApplyCoreSpace (s : CoreState) (v : List Char) :
    newApplyCore s ⟨"editor-space", v⟩ =
      some (spaceCase { s with currentlyHighlightedCode := [], isSaved := false } (jsParseInt v)) := rfl
theorem newApplyCoreTab (s : CoreState) (v : List Char) :
    newApplyCore s ⟨"editor-tab", v⟩ =
      some (tabStep^[nIter (jsParseInt v)] { s with currentlyHighlightedCode := [] }) := rfl
theorem newApplyCoreCommandLeft (s : CoreState) (v : List Char) :
    newApplyCore s ⟨"editor-command-left", v⟩ =
      some (clearHi (commandLeftStep^[nIter (jsParseInt v)] { s with currentlyHighlightedCode := [] })) := rfl
theorem newApplyCoreCommandRight (s : CoreState) (v : List Char) :
    newApplyCore s ⟨"editor-command-right", v⟩ =
      some (clearHi (commandRightStep^[nIter (jsParseInt v)] { s with currentlyHighlightedCode := [] })) := rfl
theorem newApplyCoreShiftLeft (s : CoreState) (v : List Char) :
    newApplyCore s ⟨"editor-shift+arrow-left", v⟩ =
      some (shiftCase shiftLeftStep { s with currentlyHighlightedCode := [] } (jsParseInt v)) := rfl
theorem newApplyCoreShiftRight (s : CoreState) (v : List Char) :
    newApplyCore s ⟨"editor-shift+arrow-right", v⟩ =
      some (shiftCase shiftRightStep { s with currentlyHighlightedCode := [] } (jsParseInt v)) := rfl
theorem newApplyCoreShiftDown (s : CoreState) (v : List Char) :
    newApplyCore s ⟨"editor-shift+arrow-down", v⟩ =
      some (shiftCase shiftDownStep { s with currentlyHighlightedCode := [] } (jsParseInt v)) := rfl
theorem newApplyCoreShiftUp (s : CoreState) (v : List Char) :
    newApplyCore s ⟨"editor-shift+arrow-up", v⟩ =
      some (shiftCase shiftUpStep { s with currentlyHighlightedCode := [] } (jsParseInt v)) := rfl
theorem newApplyCoreSave (s : CoreState) (v : List Char) :
    newApplyCore s ⟨"editor-save", v⟩ =
      some { s with currentlyHighlightedCode := [], isSaved := true } := rfl
theorem oldApplyCoreEnter (s : CoreState) (v : List Char) :
    oldApplyCore s ⟨"enter", v⟩ =
      oldEnterCase { s with currentlyHighlightedCode := [] } (jsParseInt v) := rfl
theorem oldApplyCoreType (s : CoreState) (v : List Char) :
    oldApplyCore s ⟨"type-editor", v⟩ =
      some (oldTypeCase v { s with currentlyHighlightedCode := [] } (some 1)) := rfl
theorem oldApplyCoreArrowDown (s : CoreState) (v : List Char) :
    oldApplyCore s ⟨"arrow-down", v⟩ =
      some (clearHi (arrowDownStep^[nIter (jsParseInt v)] { s with currentlyHighlightedCode := [] })) := rfl
theorem oldApplyCoreArrowUp (s : CoreState) (v : List Char) :
    oldApplyCore s ⟨"arrow-up", v⟩ =
      some (clearHi (arrowUpStep^[nIter (jsParseInt v)] { s with currentlyHighlightedCode := [] })) := rfl
theorem oldApplyCoreArrowRight (s : CoreState) (v : List Char) :
    oldApplyCore s ⟨"arrow-right", v⟩ =
      some (clearHi ((arrowRightStepOld ((lineAt s.codeLines s.caretRow).length : Int))^[nIter (jsParseInt v)] { s with currentlyHighlightedCode := [] })) := rfl
theorem oldApplyCoreArrowLeft (s : CoreState) (v : List Char) :
    oldApplyCore s ⟨"arrow-left", v⟩ =
      some (clearHi (arrowLeftStep^[nIter (jsParseInt v)] { s with currentlyHighlightedCode := [] })) := rfl
/-- A completed `applyAction` is the recording of the switch result. -/
theorem applyAction_of_core {s : EditorState} {a : Act} {c : CoreState}
    (h : newApplyCore s.core a = some c) :
    applyAction s a = some (recordStep s a c) := by
  unfold applyAction
  rw [h]

/-- A completed `applyAction` factors through `recordStep`. -/
theorem applyAction_shape {s s' : EditorState} {a : Act} (h : applyAction s a = some s') :
    ∃ c, newApplyCore s.core a = some c ∧ s' = recordStep s a c := by
  unfold applyAction at h
  cases hc : newApplyCore s.core a with
  | none => rw [hc] at h; exact absurd h (by simp)
  | some c =>
    rw [hc] at h
    rw [Option.some.injEq] at h
    exact ⟨c, rfl, h.symm⟩

/-! Claim theorems. -/

/-- C2: buffer non-emptiness invariant — for every reachable state (any constructor
input, empty input normalizing to one empty line, followed by any action sequence),
the line buffer contains at least one line. -/
theorem bufferNeverEmpty {s : EditorState} (h : Reachable s) :
    1 ≤ (getCodeLines s).length := by
  obtain ⟨K1, _, _, _⟩ := reachable_coreInv h
  unfold getCodeLines
  omega

/-- Witness for C2 at the empty-constructor state. -/
theorem bufferNeverEmpty_witness : 1 ≤ (getCodeLines (mkEditor [])).length :=
  bufferNeverEmpty (Reachable.init [])

/-- C1 counterexample (column bound, on completed calls): after command-right on "ab"
and one arrow-down onto the empty second line, the reachable state has caret (1, 2)
while line 1 has length 0, so caret.col exceeds the line length (plain vertical
movement does not re-clamp the column). -/
theorem caretBounds_counterexample :
    (applyActions (mkEditor [['a', 'b'], []])
        [⟨"editor-command-right", ['1']⟩, ⟨"editor-arrow-down", ['1']⟩]).map
      (fun s => (s.core.caretRow, s.core.caretCol,
        ((lineAt (getCodeLines s) s.core.caretRow).length : Int))) =
      some (1, 2, 0) ∧ ¬((2 : Int) ≤ 0) := by
  constructor
  · rfl
  · decide

/-- Supporting fact: over states reached through completed `applyAction` calls alone,
the row half of the caret-bounds invariant does hold — `0 ≤ caret.row <
buffer.length`.  The breach of the row bound (see the code-bug theorem below)
therefore requires the exception path; the column bounds fail already on completed
calls (see the counterexample above). -/
theorem caretRowInRange {s : EditorState} (h : Reachable s) :
    0 ≤ s.core.caretRow ∧ s.core.caretRow < ((getCodeLines s).length : Int) := by
  obtain ⟨_, K2, K3, _⟩ := reachable_coreInv h
  exact ⟨K2, K3⟩

/-- The completed-call row bound instantiated at the empty-constructor state. -/
theorem caretRowInRange_witness :
    0 ≤ (mkEditor []).core.caretRow ∧
      (mkEditor []).core.caretRow < ((getCodeLines (mkEditor [])).length : Int) :=
  caretRowInRange (Reachable.init [])

/-- C1: code-bug demonstration (row bound, via the exception path).  From lines
["a", "b", "c"], editor-shift+arrow-down "2" completes with the anchor at (0, 0) and
the caret at (2, 0).  editor-enter "0" then enters the enter-with-selection case,
which overwrites line 0 with the empty before-text and splices away the two selected
rows BEFORE `Array(numTimes - 1)` throws its RangeError: the completed-call pipeline
refuses the action (`none`), but the persisting object is left with buffer [""] (one
line) and caret row still 2, violating the claimed `0 ≤ caret.row < buffer.length` —
a bound the code itself relies on in its unguarded `codeLines[caretRow]` reads. -/
theorem caretRowOutOfBounds_codeBug :
    ((applyActions (mkEditor [['a'], ['b'], ['c']])
        [⟨"editor-shift+arrow-down", ['2']⟩]).map (fun s => s.core)) =
      some { caretRow := 2, caretCol := 0,
             highlightStartRow := 0, highlightStartCol := 0,
             codeLines := [['a'], ['b'], ['c']],
             currentlyHighlightedCode := ['a', '\n', 'b', '\n'],
             isSaved := false, isEditorContextMenuOpen := false } ∧
    newApplyCore
      { caretRow := 2, caretCol := 0,
        highlightStartRow := 0, highlightStartCol := 0,
        codeLines := [['a'], ['b'], ['c']],
        currentlyHighlightedCode := ['a', '\n', 'b', '\n'],
        isSaved := false, isEditorContextMenuOpen := false }
      ⟨"editor-enter", ['0']⟩ = none ∧
    newEnterCaseE
      { caretRow := 2, caretCol := 0,
        highlightStartRow := 0, highlightStartCol := 0,
        codeLines := [['a'], ['b'], ['c']],
        currentlyHighlightedCode := [],
        isSaved := false, isEditorContextMenuOpen := false }
      (numTimesNew ⟨"editor-enter", ['0']⟩) =
      Except.error
        { caretRow := 2, caretCol := 0,
          highlightStartRow := 0, highlightStartCol := 0,
          codeLines := [[]], currentlyHighlightedCode := [],
          isSaved := false, isEditorContextMenuOpen := false } ∧
    ¬((2 : Int) < (([[]] : List (List Char)).length : Int)) :=
  ⟨rfl, rfl, rfl, by decide⟩

/-- Recording one step leaves every already-recorded code snapshot unchanged. -/
theorem getCodeAt_recordStep (s : EditorState) (a : Act) (c : CoreState) {i : Nat}
    (hi : i < s.codeLinesHistory.length) :
    getCodeAtActionIndex (recordStep s a c) i = getCodeAtActionIndex s i := by
  unfold getCodeAtActionIndex recordStep
  try dsimp only
  rw [if_neg (by simp only [List.length_append, List.length_singleton]; omega),
    if_neg (by omega)]
  rw [List.getD_append _ _ _ _ hi]

/-- Recording one step leaves every already-recorded highlight snapshot unchanged. -/
theorem getHighlightedAt_recordStep (s : EditorState) (a : Act) (c : CoreState) {i : Nat}
    (hi : i < s.highlightHistory.length) :
    getHighlightedCodeAtActionIndex (recordStep s a c) i =
      getHighlightedCodeAtActionIndex s i := by
  unfold getHighlightedCodeAtActionIndex recordStep
  try dsimp only
  rw [if_neg (by simp only [List.length_append, List.length_singleton]; omega)]
  rw [List.getD_append _ _ _ _ hi]
  rw [if_neg (by omega : ¬(s.highlightHistory.length - 1 < i))]

/-- Recording one step grows the code-snapshot log by one entry. -/
theorem codeHistLen_recordStep (s : EditorState) (a : Act) (c : CoreState) :
    (recordStep s a c).codeLinesHistory.length = s.codeLinesHistory.length + 1 := by
  unfold recordStep
  try dsimp only
  simp only [List.length_append, List.length_singleton]

/-- Recording one step grows the highlight-snapshot log by one entry. -/
theorem hiHistLen_recordStep (s : EditorState) (a : Act) (c : CoreState) :
    (recordStep s a c).highlightHistory.length = s.highlightHistory.length + 1 := by
  unfold recordStep
  try dsimp only
  simp only [List.length_append, List.length_singleton]

/-- C3: history immutability — for every step index `i` already recorded, applying any
further action sequence (that completes) leaves `getCodeAtActionIndex i` and
`getHighlightedCodeAtActionIndex i` exactly as they were when entry `i` was recorded:
the history logs are append-only and snapshots are copies, so later buffer mutation
never retroactively changes a past entry. -/
theorem historySnapshotsImmutable :
    ∀ (acts : List Act) (s s' : EditorState), applyActions s acts = some s' →
      ∀ i : Nat, i < s.codeLinesHistory.length → i < s.highlightHistory.length →
        getCodeAtActionIndex s' i = getCodeAtActionIndex s i ∧
        getHighlightedCodeAtActionIndex s' i = getHighlightedCodeAtActionIndex s i := by
  intro acts
  induction acts with
  | nil =>
    intro s s' h i hi1 hi2
    unfold applyActions at h
    rw [Option.some.injEq] at h
    subst h
    exact ⟨rfl, rfl⟩
  | cons a rest ih =>
    intro s s' h i hi1 hi2
    unfold applyActions at h
    cases ha : applyAction s a with
    | none => rw [ha] at h; exact absurd h (by simp)
    | some s1 =>
      rw [ha] at h
      dsimp only at h
      obtain ⟨c, _, rfl⟩ := applyAction_shape ha
      have hlen1 := codeHistLen_recordStep s a c
      have hlen2 := hiHistLen_recordStep s a c
      obtain ⟨e1, e2⟩ := ih _ _ h i (by omega) (by omega)
      exact ⟨e1.trans (getCodeAt_recordStep s a c hi1),
             e2.trans (getHighlightedAt_recordStep s a c hi2)⟩

/-- Witness for C3: one concrete extension step preserves the snapshot at index 0. -/
theorem historySnapshotsImmutable_witness :
    (applyActions (mkEditor [['a']]) [⟨"editor-type", ['b']⟩]).map
        (fun s' => (getCodeAtActionIndex s' 0, getHighlightedCodeAtActionIndex s' 0)) =
      some (some ['a'], some []) := by
  have h : applyActions (mkEditor [['a']]) [⟨"editor-type", ['b']⟩] =
      some (recordStep (mkEditor [['a']]) ⟨"editor-type", ['b']⟩
        (newTypeCase ['b'] { (mkEditor [['a']]).core with
          currentlyHighlightedCode := [], isSaved := false } (some 1))) := by rfl
  obtain ⟨e1, e2⟩ := historySnapshotsImmutable [⟨"editor-type", ['b']⟩] (mkEditor [['a']]) _
    h 0 (by decide) (by decide)
  rw [h]
  dsimp only [Option.map]
  rw [e1, e2]
  decide

/-! Field-preservation lemmas: the loop bodies never touch the highlighted-text cache
or the saved flag. -/

theorem fields_enterStep (s : CoreState) :
    (enterStep s).currentlyHighlightedCode = s.currentlyHighlightedCode ∧
    (enterStep s).isSaved = s.isSaved := ⟨rfl, rfl⟩

theorem fields_typeStepOld (v : List Char) (s : CoreState) :
    (typeStepOld v s).currentlyHighlightedCode = s.currentlyHighlightedCode ∧
    (typeStepOld v s).isSaved = s.isSaved := ⟨rfl, rfl⟩

theorem fields_typeInsertRest (r : List Char) :
    ∀ (segs : List (List Char)) (s : CoreState),
      (typeInsertRest r segs s).currentlyHighlightedCode = s.currentlyHighlightedCode ∧
      (typeInsertRest r segs s).isSaved = s.isSaved
  | [], _ => ⟨rfl, rfl⟩
  | [_], _ => ⟨rfl, rfl⟩
  | a :: b :: t, s => ⟨(fields_typeInsertRest r (b :: t) _).1, (fields_typeInsertRest r (b :: t) _).2⟩

theorem fields_typeStepNew (v : List Char) (s : CoreState) :
    (typeStepNew v s).currentlyHighlightedCode = s.currentlyHighlightedCode ∧
    (typeStepNew v s).isSaved = s.isSaved := by
  unfold typeStepNew
  split
  · exact ⟨rfl, rfl⟩
  · exact ⟨rfl, rfl⟩
  · exact ⟨(fields_typeInsertRest _ _ _).1, (fields_typeInsertRest _ _ _).2⟩

theorem fields_arrowDownStep (s : CoreState) :
    (arrowDownStep s).currentlyHighlightedCode = s.currentlyHighlightedCode ∧
    (arrowDownStep s).isSaved = s.isSaved := by
  unfold arrowDownStep
  split
  all_goals exact ⟨rfl, rfl⟩

theorem fields_arrowUpStep (s : CoreState) :
    (arrowUpStep s).currentlyHighlightedCode = s.currentlyHighlightedCode ∧
    (arrowUpStep s).isSaved = s.isSaved := by
  unfold arrowUpStep
  split
  all_goals exact ⟨rfl, rfl⟩

theorem fields_arrowRightStepNew (k : Int) (s : CoreState) :
    (arrowRightStepNew k s).currentlyHighlightedCode = s.currentlyHighlightedCode ∧
    (arrowRightStepNew k s).isSaved = s.isSaved := by
  unfold arrowRightStepNew
  split
  all_goals try split
  all_goals exact ⟨rfl, rfl⟩

theorem fields_arrowRightStepOld (k : Int) (s : CoreState) :
    (arrowRightStepOld k s).currentlyHighlightedCode = s.currentlyHighlightedCode ∧
    (arrowRightStepOld k s).isSaved = s.isSaved := by
  unfold arrowRightStepOld
  split
  all_goals try split
  all_goals exact ⟨rfl, rfl⟩

theorem fields_arrowLeftStep (s : CoreState) :
    (arrowLeftStep s).currentlyHighlightedCode = s.currentlyHighlightedCode ∧
    (arrowLeftStep s).isSaved = s.isSaved := by
  unfold arrowLeftStep
  split
  all_goals try split
  all_goals exact ⟨rfl, rfl⟩

theorem fields_backspaceStep (s : CoreState) :
    (backspaceStep s).currentlyHighlightedCode = s.currentlyHighlightedCode ∧
    (backspaceStep s).isSaved = s.isSaved := by
  unfold backspaceStep
  split
  all_goals try split
  all_goals exact ⟨rfl, rfl⟩

theorem fields_spaceStep (s : CoreState) :
    (spaceStep s).currentlyHighlightedCode = s.currentlyHighlightedCode ∧
    (spaceStep s).isSaved = s.isSaved := ⟨rfl, rfl⟩

theorem fields_tabStep (s : CoreState) :
    (tabStep s).currentlyHighlightedCode = s.currentlyHighlightedCode ∧
    (tabStep s).isSaved = s.isSaved := ⟨rfl, rfl⟩

theorem fields_commandLeftStep (s : CoreState) :
    (commandLeftStep s).currentlyHighlightedCode = s.currentlyHighlightedCode ∧
    (commandLeftStep s).isSaved = s.isSaved := by
  unfold commandLeftStep
  split
  all_goals exact ⟨rfl, rfl⟩

theorem fields_commandRightStep (s : CoreState) :
    (commandRightStep s).currentlyHighlightedCode = s.currentlyHighlightedCode ∧
    (commandRightStep s).isSaved = s.isSaved := by
  unfold commandRightStep
  split
  all_goals exact ⟨rfl, rfl⟩

theorem isSaved_shiftAnchor (s : CoreState) : (shiftAnchor s).isSaved = s.isSaved := by
  unfold shiftAnchor
  split
  all_goals rfl

theorem isSaved_shiftLeftStep (s : CoreState) : (shiftLeftStep s).isSaved = s.isSaved := by
  unfold shiftLeftStep
  split
  all_goals try split
  all_goals rfl

theorem isSaved_shiftRightStep (s : CoreState) : (shiftRightStep s).isSaved = s.isSaved := by
  unfold shiftRightStep
  split
  all_goals try split
  all_goals rfl

theorem isSaved_shiftDownStep (s : CoreState) : (shiftDownStep s).isSaved = s.isSaved := by
  unfold shiftDownStep
  split
  all_goals try dsimp only
  all_goals try split
  all_goals rfl

theorem isSaved_shiftUpStep (s : CoreState) : (shiftUpStep s).isSaved = s.isSaved := by
  unfold shiftUpStep
  split
  all_goals try dsimp only
  all_goals try split
  all_goals rfl

theorem isSaved_backspaceHighlight (s : CoreState) :
    (backspaceHighlight s).isSaved = s.isSaved := by
  unfold backspaceHighlight clearHi
  try dsimp only
  split
  all_goals rfl

theorem isSaved_spaceHighlight (s : CoreState) :
    (spaceHighlight s).isSaved = s.isSaved := by
  unfold spaceHighlight clearHi
  try dsimp only
  split
  all_goals rfl

/-! Case-level lemmas about the highlighted-text cache and the saved flag. -/

theorem curHi_newEnterCase {s c : CoreState} {o : Option Int}
    (hs : s.currentlyHighlightedCode = []) (he : newEnterCase s o = some c) :
    c.currentlyHighlightedCode = [] := by
  unfold newEnterCase at he
  split_ifs at he with hh
  · unfold enterHighlightNew enterHighlightNewE at he
    cases o with
    | none => exact absurd he (by simp [Except.toOption])
    | some n =>
      dsimp only at he
      by_cases hn1 : n - 1 < 0 ∨ 4294967296 ≤ n - 1
      · rw [if_pos hn1] at he
        exact absurd he (by simp [Except.toOption])
      · rw [if_neg hn1] at he
        simp only [Except.toOption] at he
        rw [Option.some.injEq] at he
        subst he
        rfl
  · rw [Option.some.injEq] at he
    subst he
    exact (iterate_proj (g := fun t : CoreState => t.currentlyHighlightedCode)
      (fun t => (fields_enterStep t).1) _ _).trans hs

theorem isSaved_newEnterCase {s c : CoreState} {o : Option Int}
    (he : newEnterCase s o = some c) : c.isSaved = s.isSaved := by
  unfold newEnterCase at he
  split_ifs at he with hh
  · unfold enterHighlightNew enterHighlightNewE at he
    cases o with
    | none => exact absurd he (by simp [Except.toOption])
    | some n =>
      dsimp only at he
      by_cases hn1 : n - 1 < 0 ∨ 4294967296 ≤ n - 1
      · rw [if_pos hn1] at he
        exact absurd he (by simp [Except.toOption])
      · rw [if_neg hn1] at he
        simp only [Except.toOption] at he
        rw [Option.some.injEq] at he
        subst he
        rfl
  · rw [Option.some.injEq] at he
    subst he
    exact iterate_proj (g := fun t : CoreState => t.isSaved)
      (fun t => (fields_enterStep t).2) _ _

theorem curHi_newTypeCase {v : List Char} {s : CoreState} {o : Option Int}
    (hs : s.currentlyHighlightedCode = []) :
    (newTypeCase v s o).currentlyHighlightedCode = [] := by
  unfold newTypeCase
  refine (iterate_proj (g := fun t : CoreState => t.currentlyHighlightedCode)
    (fun t => (fields_typeStepNew v t).1) _ _).trans ?_
  split
  · rfl
  · exact hs

theorem isSaved_newTypeCase {v : List Char} {s : CoreState} {o : Option Int} :
    (newTypeCase v s o).isSaved = s.isSaved := by
  unfold newTypeCase
  refine (iterate_proj (g := fun t : CoreState => t.isSaved)
    (fun t => (fields_typeStepNew v t).2) _ _).trans ?_
  split
  · rfl
  · rfl

theorem curHi_backspaceCase {s : CoreState} {o : Option Int}
    (hs : s.currentlyHighlightedCode = []) :
    (backspaceCase s o).currentlyHighlightedCode = [] := by
  unfold backspaceCase
  split
  · rfl
  · exact (iterate_proj (g := fun t : CoreState => t.currentlyHighlightedCode)
      (fun t => (fields_backspaceStep t).1) _ _).trans hs

theorem isSaved_backspaceCase {s : CoreState} {o : Option Int} :
    (backspaceCase s o).isSaved = s.isSaved := by
  unfold backspaceCase
  split
  · exact isSaved_backspaceHighlight s
  · exact iterate_proj (g := fun t : CoreState => t.isSaved)
      (fun t => (fields_backspaceStep t).2) _ _

theorem curHi_spaceCase {s : CoreState} {o : Option Int}
    (hs : s.currentlyHighlightedCode = []) :
    (spaceCase s o).currentlyHighlightedCode = [] := by
  unfold spaceCase
  refine (iterate_proj (g := fun t : CoreState => t.currentlyHighlightedCode)
    (fun t => (fields_spaceStep t).1) _ _).trans ?_
  split
  · rfl
  · exact hs

theorem isSaved_spaceCase {s : CoreState} {o : Option Int} :
    (spaceCase s o).isSaved = s.isSaved := by
  unfold spaceCase
  refine (iterate_proj (g := fun t : CoreState => t.isSaved)
    (fun t => (fields_spaceStep t).2) _ _).trans ?_
  split
  · exact isSaved_spaceHighlight s
  · rfl

/-- The four selection-extending action names of the unified engine. -/
def shiftNames : List String :=
  ["editor-shift+arrow-left", "editor-shift+arrow-right",
   "editor-shift+arrow-down", "editor-shift+arrow-up"]

/-- Core form of the highlighted-text cache invariant: every completed non-shift
action leaves the cache empty (it is reset before dispatch and only the shift+arrow
cases recompute it). -/
theorem curHi_newApplyCore {s c : CoreState} {a : Act}
    (he : newApplyCore s a = some c) (hn : a.name ∉ shiftNames) :
    c.currentlyHighlightedCode = [] := by
  unfold newApplyCore at he
  by_cases e1 : a.name = "editor-show-context-menu"
  · rw [if_pos e1, Option.some.injEq] at he; subst he; rfl
  rw [if_neg e1] at he
  by_cases e2 : a.name = "editor-hide-context-menu"
  · rw [if_pos e2, Option.some.injEq] at he; subst he; rfl
  rw [if_neg e2] at he
  by_cases e3 : a.name = "editor-enter"
  · rw [if_pos e3] at he
    exact curHi_newEnterCase rfl he
  rw [if_neg e3] at he
  by_cases e4 : a.name = "editor-type"
  · rw [if_pos e4, Option.some.injEq] at he; subst he
    exact curHi_newTypeCase rfl
  rw [if_neg e4] at he
  by_cases e5 : a.name = "editor-arrow-down"
  · rw [if_pos e5, Option.some.injEq] at he; subst he; rfl
  rw [if_neg e5] at he
  by_cases e6 : a.name = "editor-arrow-up"
  · rw [if_pos e6, Option.some.injEq] at he; subst he; rfl
  rw [if_neg e6] at he
  by_cases e7 : a.name = "editor-arrow-right"
  · rw [if_pos e7, Option.some.injEq] at he; subst he; rfl
  rw [if_neg e7] at he
  by_cases e8 : a.name = "editor-arrow-left"
  · rw [if_pos e8, Option.some.injEq] at he; subst he; rfl
  rw [if_neg e8] at he
  by_cases e9 : a.name = "editor-backspace"
  · rw [if_pos e9, Option.some.injEq] at he; subst he
    exact curHi_backspaceCase rfl
  rw [if_neg e9] at he
  by_cases e10 : a.name = "editor-space"
  · rw [if_pos e10, Option.some.injEq] at he; subst he
    exact curHi_spaceCase rfl
  rw [if_neg e10] at he
  by_cases e11 : a.name = "editor-tab"
  · rw [if_pos e11, Option.some.injEq] at he; subst he
    exact (iterate_proj (g := fun t : CoreState => t.currentlyHighlightedCode)
      (fun t => (fields_tabStep t).1) _ _).trans rfl
  rw [if_neg e11] at he
  by_cases e12 : a.name = "editor-command-left"
  · rw [if_pos e12, Option.some.injEq] at he; subst he; rfl
  rw [if_neg e12] at he
  by_cases e13 : a.name = "editor-command-right"
  · rw [if_pos e13, Option.some.injEq] at he; subst he; rfl
  rw [if_neg e13] at he
  by_cases e14 : a.name = "editor-shift+arrow-left"
  · exact absurd (by rw [e14]; decide) hn
  rw [if_neg e14] at he
  by_cases e15 : a.name = "editor-shift+arrow-right"
  · exact absurd (by rw [e15]; decide) hn
  rw [if_neg e15] at he
  by_cases e16 : a.name = "editor-shift+arrow-down"
  · exact absurd (by rw [e16]; decide) hn
  rw [if_neg e16] at he
  by_cases e17 : a.name = "editor-shift+arrow-up"
  · exact absurd (by rw [e17]; decide) hn
  rw [if_neg e17] at he
  by_cases e18 : a.name = "editor-save"
  · rw [if_pos e18, Option.some.injEq] at he; subst he; rfl
  rw [if_neg e18, Option.some.injEq] at he
  subst he
  rfl

/-- C10: highlighted-text cache invariant — after any completed action whose kind is
not one of the four selection-extending shift+arrow kinds, `getCurrentHighlightedCode`
is the empty string and the highlight snapshot recorded for that step is the empty
entry, even when the selection anchor itself remains set.  Hence a non-empty current
highlighted text can only follow a shift+arrow action. -/
theorem highlightCacheResetOnNonShift {s s' : EditorState} {a : Act}
    (h : applyAction s a = some s') (hn : a.name ∉ shiftNames) :
    getCurrentHighlightedCode s' = [] ∧
    s'.highlightHistory.getLast? = some [([] : List Char)] := by
  obtain ⟨c, hc, rfl⟩ := applyAction_shape h
  have hcur : c.currentlyHighlightedCode = [] := curHi_newApplyCore hc hn
  constructor
  · exact hcur
  · unfold recordStep
    try dsimp only
    rw [List.getLast?_concat]
    rw [if_pos hcur]

/-- Witness for C10: an editor-save action (with the anchor set by an earlier
shift+arrow-left) resets the reported highlighted code and records an empty snapshot. -/
theorem highlightCacheResetOnNonShift_witness :
    (applyActions (mkEditor [['a', 'b']])
        [⟨"editor-shift+arrow-right", ['1']⟩, ⟨"editor-save", ['1']⟩]).map
      (fun s' => (getCurrentHighlightedCode s', s'.highlightHistory.getLast?)) =
      some ([], some [([] : List Char)]) := by
  cases hs1 : applyAction (mkEditor [['a', 'b']]) ⟨"editor-shift+arrow-right", ['1']⟩ with
  | none => exact absurd hs1 (by decide)
  | some s1 =>
    cases hs2 : applyAction s1 ⟨"editor-save", ['1']⟩ with
    | none =>
      exfalso
      unfold applyAction at hs2
      rw [newApplyCoreSave] at hs2
      exact absurd hs2 (by simp)
    | some s2 =>
      have hrun : applyActions (mkEditor [['a', 'b']])
          [⟨"editor-shift+arrow-right", ['1']⟩, ⟨"editor-save", ['1']⟩] = some s2 := by
        unfold applyActions
        rw [hs1]
        dsimp only
        unfold applyActions
        rw [hs2]
        rfl
      rw [hrun]
      obtain ⟨hcur, hlast⟩ := highlightCacheResetOnNonShift hs2 (by decide)
      dsimp only [Option.map]
      rw [hcur, hlast]

/-- C7 counterexample: after editor-save, an editor-tab insertion (a buffer-mutating
action) leaves the saved flag `true` — the editor-tab case has no `isSaved = false`
assignment — contradicting the claim that every buffer-mutating action clears it. -/
theorem savedFlag_counterexample :
    (applyActions (mkEditor [['a']])
        [⟨"editor-save", ['1']⟩, ⟨"editor-tab", ['1']⟩]).map getIsSaved = some true ∧
    true ≠ false := by
  constructor
  · rfl
  · decide

/-- C7 amended: the save action sets the saved flag; newline, text insertion,
backspace and space insertion clear it; tab insertion does NOT clear it (the one
buffer-mutating case without the reset). -/
theorem savedFlagSemantics (s : EditorState) (v : List Char) :
    (∀ s', applyAction s ⟨"editor-save", v⟩ = some s' → getIsSaved s' = true) ∧
    (∀ nm s', nm ∈ (["editor-enter", "editor-type", "editor-backspace",
        "editor-space"] : List String) →
      applyAction s ⟨nm, v⟩ = some s' → getIsSaved s' = false) ∧
    (∀ s', applyAction s ⟨"editor-tab", v⟩ = some s' → getIsSaved s' = getIsSaved s) := by
  refine ⟨?_, ?_, ?_⟩
  · intro s' h
    obtain ⟨c, hc, rfl⟩ := applyAction_shape h
    rw [newApplyCoreSave, Option.some.injEq] at hc
    subst hc
    rfl
  · intro nm s' hmem h
    obtain ⟨c, hc, rfl⟩ := applyAction_shape h
    simp only [List.mem_cons, List.not_mem_nil, or_false] at hmem
    rcases hmem with rfl | rfl | rfl | rfl
    · rw [newApplyCoreEnter] at hc
      exact isSaved_newEnterCase hc
    · rw [newApplyCoreType, Option.some.injEq] at hc
      subst hc
      exact isSaved_newTypeCase
    · rw [newApplyCoreBackspace, Option.some.injEq] at hc
      subst hc
      exact isSaved_backspaceCase
    · rw [newApplyCoreSpace, Option.some.injEq] at hc
      subst hc
      exact isSaved_spaceCase
  · intro s' h
    obtain ⟨c, hc, rfl⟩ := applyAction_shape h
    rw [newApplyCoreTab, Option.some.injEq] at hc
    subst hc
    exact iterate_proj (g := fun t : CoreState => t.isSaved)
      (fun t => (fields_tabStep t).2) _ _

/-- Witness for the amended C7: editor-save on a concrete editor reports saved. -/
theorem savedFlagSemantics_witness :
    (applyActions (mkEditor [['a']]) [⟨"editor-save", ['1']⟩]).map getIsSaved =
      some true := by
  cases hs : applyAction (mkEditor [['a']]) ⟨"editor-save", ['1']⟩ with
  | none => exact absurd hs (by decide)
  | some s' =>
    have hsv := (savedFlagSemantics (mkEditor [['a']]) ['1']).1 s' hs
    have hrun : applyActions (mkEditor [['a']]) [⟨"editor-save", ['1']⟩] = some s' := by
      unfold applyActions
      rw [hs]
      rfl
    rw [hrun]
    dsimp only [Option.map]
    rw [hsv]

/-- Projection of the shift+arrow anchor step: the buffer is untouched. -/
theorem codeLines_shiftAnchor (s : CoreState) : (shiftAnchor s).codeLines = s.codeLines := by
  unfold shiftAnchor
  split
  all_goals rfl

/-- Projection of the shift+arrow anchor step: the caret is untouched. -/
theorem caretRow_shiftAnchor (s : CoreState) : (shiftAnchor s).caretRow = s.caretRow := by
  unfold shiftAnchor
  split
  all_goals rfl

/-- Projection of the shift+arrow anchor step: the caret column is untouched. -/
theorem caretCol_shiftAnchor (s : CoreState) : (shiftAnchor s).caretCol = s.caretCol := by
  unfold shiftAnchor
  split
  all_goals rfl

/-- C8 counterexample: a repeatable action whose value does not parse is applied zero
times, not once — arrow-down with value "abc" leaves the caret on row 0, while a
single application moves it to row 1. -/
theorem malformedRepeat_counterexample :
    (applyActions (mkEditor [['a', 'b'], ['c', 'd']])
        [⟨"editor-arrow-down", ['a', 'b', 'c']⟩]).map (fun s => s.core.caretRow) =
      some 0 ∧
    (applyActions (mkEditor [['a', 'b'], ['c', 'd']])
        [⟨"editor-arrow-down", ['1']⟩]).map (fun s => s.core.caretRow) = some 1 ∧
    (0 : Int) ≠ 1 := by
  refine ⟨rfl, rfl, by decide⟩

/-- C8 amended: for every repeatable action kind, a value string that does not parse
as an integer makes `parseInt` return NaN, so the repeat loop runs zero times: with no
active selection the buffer and caret are left unchanged (the effect is applied zero
times, not once).  Only non-repeatable payload actions fall back to a count of one. -/
theorem malformedRepeatAppliesZero (s : CoreState) (nm : String) (v : List Char)
    (hm : nm ∈ repeatableNamesNew) (hv : jsParseInt v = none)
    (hh : s.highlightStartRow = -1) :
    ∃ c, newApplyCore s ⟨nm, v⟩ = some c ∧ c.codeLines = s.codeLines ∧
      c.caretRow = s.caretRow ∧ c.caretCol = s.caretCol := by
  simp only [repeatableNamesNew, List.mem_cons, List.not_mem_nil, or_false] at hm
  rcases hm with rfl | rfl | rfl | rfl | rfl | rfl | rfl | rfl | rfl | rfl | rfl | rfl | rfl | rfl
  · refine ⟨{ s with currentlyHighlightedCode := [], isSaved := false }, ?_, rfl, rfl, rfl⟩
    rw [newApplyCoreEnter, hv]
    unfold newEnterCase
    rw [if_neg (by dsimp only; omega)]
    rfl
  · exact ⟨clearHi { s with currentlyHighlightedCode := [] },
      by rw [newApplyCoreArrowUp, hv]; rfl, rfl, rfl, rfl⟩
  · exact ⟨clearHi { s with currentlyHighlightedCode := [] },
      by rw [newApplyCoreArrowDown, hv]; rfl, rfl, rfl, rfl⟩
  · exact ⟨clearHi { s with currentlyHighlightedCode := [] },
      by rw [newApplyCoreArrowLeft, hv]; rfl, rfl, rfl, rfl⟩
  · exact ⟨clearHi { s with currentlyHighlightedCode := [] },
      by rw [newApplyCoreArrowRight, hv]; rfl, rfl, rfl, rfl⟩
  · exact ⟨clearHi { s with currentlyHighlightedCode := [] },
      by rw [newApplyCoreCommandLeft, hv]; rfl, rfl, rfl, rfl⟩
  · exact ⟨clearHi { s with currentlyHighlightedCode := [] },
      by rw [newApplyCoreCommandRight, hv]; rfl, rfl, rfl, rfl⟩
  · refine ⟨{ s with currentlyHighlightedCode := [], isSaved := false }, ?_, rfl, rfl, rfl⟩
    rw [newApplyCoreBackspace, hv]
    unfold backspaceCase
    rw [if_neg (by dsimp only; omega)]
    rfl
  · refine ⟨{ s with currentlyHighlightedCode := [], isSaved := false }, ?_, rfl, rfl, rfl⟩
    rw [newApplyCoreSpace, hv]
    unfold spaceCase
    rw [if_neg (by dsimp only; omega)]
    rfl
  · exact ⟨tabStep^[nIter none] { s with currentlyHighlightedCode := [] },
      by rw [newApplyCoreTab, hv], rfl, rfl, rfl⟩
  · refine ⟨_, by rw [newApplyCoreShiftLeft, hv], ?_, ?_, ?_⟩
    · exact codeLines_shiftAnchor _
    · exact caretRow_shiftAnchor _
    · exact caretCol_shiftAnchor _
  · refine ⟨_, by rw [newApplyCoreShiftRight, hv], ?_, ?_, ?_⟩
    · exact codeLines_shiftAnchor _
    · exact caretRow_shiftAnchor _
    · exact caretCol_shiftAnchor _
  · refine ⟨_, by rw [newApplyCoreShiftUp, hv], ?_, ?_, ?_⟩
    · exact codeLines_shiftAnchor _
    · exact caretRow_shiftAnchor _
    · exact caretCol_shiftAnchor _
  · refine ⟨_, by rw [newApplyCoreShiftDown, hv], ?_, ?_, ?_⟩
    · exact codeLines_shiftAnchor _
    · exact caretRow_shiftAnchor _
    · exact caretCol_shiftAnchor _

/-- Witness for the amended C8 at a concrete state and malformed value. -/
theorem malformedRepeatAppliesZero_witness :
    "editor-arrow-down" ∈ repeatableNamesNew ∧
    jsParseInt ['a', 'b', 'c'] = none ∧
    (initCore [['a', 'b'], ['c', 'd']]).highlightStartRow = -1 ∧
    ∃ c, newApplyCore (initCore [['a', 'b'], ['c', 'd']])
        ⟨"editor-arrow-down", ['a', 'b', 'c']⟩ = some c ∧
      c.codeLines = (initCore [['a', 'b'], ['c', 'd']]).codeLines ∧
      c.caretRow = (initCore [['a', 'b'], ['c', 'd']]).caretRow ∧
      c.caretCol = (initCore [['a', 'b'], ['c', 'd']]).caretCol :=
  ⟨by decide, by decide, by decide,
    malformedRepeatAppliesZero (initCore [['a', 'b'], ['c', 'd']]) "editor-arrow-down"
      ['a', 'b', 'c'] (by decide) (by decide) (by decide)⟩

/-- C5 counterexample: from caret (1,0) in buffer ["ab","cd"], one plain left-arrow
step lands at column 1, not at the end-of-line column 2 of the previous line — the
wrap sets the column to `length - 1`, not `length`. -/
theorem arrowLeftWrap_counterexample :
    (applyActions (mkEditor [['a', 'b'], ['c', 'd']])
        [⟨"editor-arrow-down", ['1']⟩, ⟨"editor-arrow-left", ['1']⟩]).map
      (fun s => (s.core.caretRow, s.core.caretCol,
        ((lineAt (getCodeLines s) 0).length : Int))) = some (0, 1, 2) ∧
    (1 : Int) ≠ 2 :=
  ⟨rfl, by decide⟩

/-- C5 amended: a single plain left-arrow step from column 0 of a row greater than 0
(no active selection) moves the caret to the previous row with column equal to the
previous line's LENGTH MINUS ONE (one short of the end-of-line position; -1 on an
empty previous line); at (0,0) it is a no-op.  The buffer is unchanged either way. -/
theorem arrowLeftWrapOffByOne (s : EditorState)
    (hc : s.core.caretCol = 0) (hnosel : s.core.highlightStartRow = -1) :
    ∃ s', applyAction s ⟨"editor-arrow-left", ['1']⟩ = some s' ∧
      getCodeLines s' = getCodeLines s ∧
      (0 < s.core.caretRow →
        s'.core.caretRow = s.core.caretRow - 1 ∧
        s'.core.caretCol =
          ((lineAt (getCodeLines s) (s.core.caretRow - 1)).length : Int) - 1) ∧
      (s.core.caretRow = 0 →
        s'.core.caretRow = 0 ∧ s'.core.caretCol = 0) := by
  have hcore : newApplyCore s.core ⟨"editor-arrow-left", ['1']⟩ =
      some (clearHi (arrowLeftStep { s.core with currentlyHighlightedCode := [] })) := by
    rw [newApplyCoreArrowLeft]
    rfl
  refine ⟨_, applyAction_of_core hcore, ?_, ?_, ?_⟩
  · show (arrowLeftStep { s.core with currentlyHighlightedCode := [] }).codeLines =
      getCodeLines s
    unfold arrowLeftStep
    split
    all_goals try split
    all_goals rfl
  · intro hpos
    have hstep : arrowLeftStep { s.core with currentlyHighlightedCode := [] } =
        { s.core with
          currentlyHighlightedCode := [],
          caretRow := s.core.caretRow - 1,
          caretCol :=
            ((lineAt s.core.codeLines (s.core.caretRow - 1)).length : Int) - 1 } := by
      unfold arrowLeftStep
      rw [if_neg (by dsimp only; omega), if_pos (by dsimp only; omega)]
    constructor
    · show (clearHi (arrowLeftStep { s.core with currentlyHighlightedCode := [] })).caretRow =
        s.core.caretRow - 1
      rw [hstep]
      rfl
    · show (clearHi (arrowLeftStep { s.core with currentlyHighlightedCode := [] })).caretCol =
        ((lineAt (getCodeLines s) (s.core.caretRow - 1)).length : Int) - 1
      rw [hstep]
      rfl
  · intro h0
    have hstep : arrowLeftStep { s.core with currentlyHighlightedCode := [] } =
        { s.core with currentlyHighlightedCode := [] } := by
      unfold arrowLeftStep
      rw [if_neg (by dsimp only; omega), if_neg (by dsimp only; omega)]
    constructor
    · show (clearHi (arrowLeftStep { s.core with currentlyHighlightedCode := [] })).caretRow = 0
      rw [hstep]
      exact h0
    · show (clearHi (arrowLeftStep { s.core with currentlyHighlightedCode := [] })).caretCol = 0
      rw [hstep]
      exact hc

/-- Witness for the amended C5: the wrap from (1,0) in ["ab","cd"] lands at (0,1). -/
theorem arrowLeftWrapOffByOne_witness :
    ∃ s', applyAction (recordStep (mkEditor [['a', 'b'], ['c', 'd']])
        ⟨"editor-arrow-down", ['1']⟩
        (clearHi (arrowDownStep { (mkEditor [['a', 'b'], ['c', 'd']]).core with
          currentlyHighlightedCode := [] })))
      ⟨"editor-arrow-left", ['1']⟩ = some s' ∧
      s'.core.caretRow = 0 ∧ s'.core.caretCol = 1 := by
  obtain ⟨s', h1, _, h3, _⟩ := arrowLeftWrapOffByOne
    (recordStep (mkEditor [['a', 'b'], ['c', 'd']]) ⟨"editor-arrow-down", ['1']⟩
      (clearHi (arrowDownStep { (mkEditor [['a', 'b'], ['c', 'd']]).core with
        currentlyHighlightedCode := [] })))
    (by decide) (by decide)
  obtain ⟨hr, hcol⟩ := h3 (by decide)
  refine ⟨s', h1, by rw [hr]; decide, by rw [hcol]; decide⟩

/-! Exact characterizations of the JS primitives on in-range indices, used for the
insert/delete round trip. -/

theorem jsSubstring_zero (s : List Char) (a : Int) :
    jsSubstring s 0 a = s.take a.toNat := by
  unfold jsSubstring
  try dsimp only
  simp only [Int.toNat_zero, Nat.zero_min, Nat.zero_max, List.drop_zero]
  rcases Nat.le_total a.toNat s.length with h | h
  · rw [Nat.min_eq_left h]
  · rw [Nat.min_eq_right h, List.take_length, List.take_of_length_le h]

theorem jsSubstringFrom_eq (s : List Char) (a : Int) :
    jsSubstringFrom s a = s.drop a.toNat := by
  unfold jsSubstringFrom jsSubstring
  try dsimp only
  simp only [Int.toNat_natCast, Nat.min_self]
  rw [Nat.max_eq_right (Nat.min_le_right _ _), Nat.min_eq_left (Nat.min_le_right _ _),
    List.take_length]
  rcases Nat.le_total a.toNat s.length with h | h
  · rw [Nat.min_eq_left h]
  · rw [Nat.min_eq_right h, List.drop_length, List.drop_eq_nil_of_le h]

theorem set_getD_self (d : α) : ∀ (l : List α) (i : Nat), i < l.length →
    l.set i (l.getD i d) = l
  | [], i, h => by simp at h
  | _ :: _, 0, _ => rfl
  | a :: t, n + 1, h => by
    show a :: t.set n ((a :: t).getD (n + 1) d) = a :: t
    have hd : (a :: t).getD (n + 1) d = t.getD n d := rfl
    rw [hd, set_getD_self d t n (by simpa using h)]

theorem lineAt_jsSetLine_self {L : List (List Char)} {i : Int} (h0 : 0 ≤ i)
    (h : i.toNat < L.length) (x : List Char) : lineAt (jsSetLine L i x) i = x := by
  unfold lineAt jsSetLine
  rw [if_pos h0, if_pos h0]
  rw [List.getD_eq_getElem _ _ (by rw [List.length_set]; exact h)]
  exact List.getElem_set_self _

theorem jsSetLine_lineAt_self {L : List (List Char)} {i : Int} (h0 : 0 ≤ i)
    (h : i.toNat < L.length) : jsSetLine L i (lineAt L i) = L := by
  unfold jsSetLine lineAt
  rw [if_pos h0, if_pos h0]
  exact set_getD_self [] L i.toNat h

theorem jsSplit_single {sep c : Char} (h : c ≠ sep) : jsSplit sep [c] = [[c]] := by
  simp [jsSplit, h]

/-- The unified type step on a single non-newline character takes the simple
splice-into-the-line branch. -/
theorem typeStepNew_single {c : Char} (hnl : c ≠ '\n') (S : CoreState) :
    typeStepNew [c] S =
      { S with
        codeLines := jsSetLine S.codeLines S.caretRow
          (jsSubstring (lineAt S.codeLines S.caretRow) 0 S.caretCol ++ [c] ++
           jsSubstringFrom (lineAt S.codeLines S.caretRow) S.caretCol),
        caretCol := S.caretCol + 1 } := by
  unfold typeStepNew
  rw [jsSplit_single hnl]
  rfl

/-- The backspace step with a positive column deletes the character before the caret. -/
theorem backspaceStep_pos {S : CoreState} (h : 0 < S.caretCol) :
    backspaceStep S =
      { S with
        codeLines := jsSetLine S.codeLines S.caretRow
          (jsSubstring (lineAt S.codeLines S.caretRow) 0 (S.caretCol - 1) ++
           jsSubstringFrom (lineAt S.codeLines S.caretRow) S.caretCol),
        caretCol := S.caretCol - 1 } := by
  unfold backspaceStep
  rw [if_pos h]

/-- Core form of the round trip: from a well-formed no-selection state, typing one
non-newline character and backspacing once restores the buffer and caret. -/
theorem typeBackspaceCore (S : CoreState) (c : Char) (hnl : c ≠ '\n')
    (hnosel : S.highlightStartRow = -1)
    (hrow0 : 0 ≤ S.caretRow) (hrow : S.caretRow < (S.codeLines.length : Int))
    (hcol0 : 0 ≤ S.caretCol)
    (hcol : S.caretCol ≤ ((lineAt S.codeLines S.caretRow).length : Int)) :
    ∃ c1 c2, newApplyCore S ⟨"editor-type", [c]⟩ = some c1 ∧
      newApplyCore c1 ⟨"editor-backspace", ['1']⟩ = some c2 ∧
      c2.codeLines = S.codeLines ∧ c2.caretRow = S.caretRow ∧
      c2.caretCol = S.caretCol := by
  have hrnat : S.caretRow.toNat < S.codeLines.length := by omega
  have hklen : S.caretCol.toNat ≤ (lineAt S.codeLines S.caretRow).length := by omega
  have e1 : newApplyCore S ⟨"editor-type", [c]⟩ =
      some { S with
        codeLines := jsSetLine S.codeLines S.caretRow
          (jsSubstring (lineAt S.codeLines S.caretRow) 0 S.caretCol ++ [c] ++
           jsSubstringFrom (lineAt S.codeLines S.caretRow) S.caretCol),
        currentlyHighlightedCode := [], isSaved := false,
        caretCol := S.caretCol + 1 } := by
    rw [newApplyCoreType]
    unfold newTypeCase
    rw [if_neg (by dsimp only; omega)]
    show some (typeStepNew [c] { S with currentlyHighlightedCode := [], isSaved := false }) = _
    rw [typeStepNew_single hnl]
  have e2 : ∀ C1 : CoreState, C1.highlightStartRow = S.highlightStartRow →
      newApplyCore C1 ⟨"editor-backspace", ['1']⟩ =
        some (backspaceStep { C1 with currentlyHighlightedCode := [], isSaved := false }) := by
    intro C1 hC1
    rw [newApplyCoreBackspace]
    unfold backspaceCase
    rw [if_neg (by dsimp only; omega)]
    rfl
  refine ⟨_, _, e1, e2 _ rfl, ?_, ?_, ?_⟩
  · rw [backspaceStep_pos (by dsimp only; omega)]
    dsimp only
    rw [lineAt_jsSetLine_self hrow0 hrnat]
    rw [show S.caretCol + 1 - 1 = S.caretCol from by omega]
    rw [jsSubstring_zero, jsSubstringFrom_eq, jsSubstring_zero, jsSubstringFrom_eq]
    rw [show (S.caretCol + 1).toNat = S.caretCol.toNat + 1 from by omega]
    have hlenA : ((lineAt S.codeLines S.caretRow).take S.caretCol.toNat).length =
        S.caretCol.toNat := by
      rw [List.length_take]
      omega
    have hlenAB : (((lineAt S.codeLines S.caretRow).take S.caretCol.toNat) ++ [c]).length =
        S.caretCol.toNat + 1 := by
      rw [List.length_append, List.length_take, List.length_singleton]
      omega
    rw [List.drop_left' hlenAB]
    rw [List.append_assoc, List.take_left' hlenA]
    rw [List.take_append_drop]
    unfold jsSetLine
    rw [if_pos hrow0, if_pos hrow0]
    rw [List.set_set]
    rw [show lineAt S.codeLines S.caretRow = S.codeLines.getD S.caretRow.toNat [] from by
      unfold lineAt; rw [if_pos hrow0]]
    exact set_getD_self [] _ _ hrnat
  · rw [backspaceStep_pos (by dsimp only; omega)]
  · rw [backspaceStep_pos (by dsimp only; omega)]
    dsimp only
    omega

/-- C4 counterexample: the round trip is NOT universal. From the reachable state
after editor-command-right and editor-arrow-down on buffer ["ab", ""], the caret sits
at column 2 of the empty second line; typing "X" inserts at the clamped position and
the subsequent backspace deletes nothing comparable, leaving buffer ["ab", "X"] ≠
["ab", ""]. -/
theorem typeBackspaceRoundTrip_counterexample :
    (applyActions (mkEditor [['a', 'b'], []])
        [⟨"editor-command-right", ['1']⟩, ⟨"editor-arrow-down", ['1']⟩]).map getCodeLines =
      some [['a', 'b'], []] ∧
    (applyActions (mkEditor [['a', 'b'], []])
        [⟨"editor-command-right", ['1']⟩, ⟨"editor-arrow-down", ['1']⟩,
         ⟨"editor-type", ['X']⟩, ⟨"editor-backspace", ['1']⟩]).map getCodeLines =
      some [['a', 'b'], ['X']] ∧
    ([['a', 'b'], []] : List (List Char)) ≠ [['a', 'b'], ['X']] :=
  ⟨rfl, rfl, by decide⟩

/-- C4 (amended): if there is no active selection, the caret row is in range and the
caret column is between 0 and the current line's length, then typing a single
non-newline character followed by one backspace restores the buffer and the caret
position exactly. -/
theorem typeBackspaceRoundTrip (s : EditorState) (c : Char) (hnl : c ≠ '\n')
    (hnosel : s.core.highlightStartRow = -1)
    (hrow0 : 0 ≤ s.core.caretRow)
    (hrow : s.core.caretRow < ((getCodeLines s).length : Int))
    (hcol0 : 0 ≤ s.core.caretCol)
    (hcol : s.core.caretCol ≤ ((lineAt (getCodeLines s) s.core.caretRow).length : Int)) :
    ∃ s1 s2, applyAction s ⟨"editor-type", [c]⟩ = some s1 ∧
      applyAction s1 ⟨"editor-backspace", ['1']⟩ = some s2 ∧
      getCodeLines s2 = getCodeLines s ∧
      s2.core.caretRow = s.core.caretRow ∧
      s2.core.caretCol = s.core.caretCol := by
  obtain ⟨c1, c2, e1, e2, f1, f2, f3⟩ :=
    typeBackspaceCore s.core c hnl hnosel hrow0 hrow hcol0 hcol
  exact ⟨recordStep s ⟨"editor-type", [c]⟩ c1,
    recordStep (recordStep s ⟨"editor-type", [c]⟩ c1) ⟨"editor-backspace", ['1']⟩ c2,
    applyAction_of_core e1, applyAction_of_core e2, f1, f2, f3⟩

/-- Witness instantiating the amended C4 round trip at a concrete editor state. -/
theorem typeBackspaceRoundTrip_witness :
    ∃ s1 s2, applyAction (mkEditor [['a', 'b']]) ⟨"editor-type", ['X']⟩ = some s1 ∧
      applyAction s1 ⟨"editor-backspace", ['1']⟩ = some s2 ∧
      getCodeLines s2 = getCodeLines (mkEditor [['a', 'b']]) ∧
      s2.core.caretRow = (mkEditor [['a', 'b']]).core.caretRow ∧
      s2.core.caretCol = (mkEditor [['a', 'b']]).core.caretCol :=
  typeBackspaceRoundTrip (mkEditor [['a', 'b']]) 'X' (by decide) rfl (by decide)
    (by decide) (by decide) (by decide)

/-- C6: code-bug demonstration. After typing "abcdef" and selecting "def" with
editor-shift+arrow-left 3 (an active single-line selection whose highlighted text is
"def"), applying editor-space with repeat count 1 does NOT delete the selection: the
buffer becomes "abcdef " with the caret at column 7, instead of the claimed
"abc " with the caret at column 4. The same-row branch of the space case normalizes
the selection bounds into equal values, so the splice deletes nothing, and the caret
is moved to the selection anchor column before the space is inserted. -/
theorem spaceSelectionDelete_codeBug :
    ((applyActions (mkEditor [])
        [⟨"editor-type", ['a', 'b', 'c', 'd', 'e', 'f']⟩,
         ⟨"editor-shift+arrow-left", ['3']⟩]).map
      (fun s => (getCurrentHighlightedCode s, getCodeLines s, s.core.caretRow,
        s.core.caretCol)) =
      some (['d', 'e', 'f'], [['a', 'b', 'c', 'd', 'e', 'f']], 0, 3)) ∧
    ((applyActions (mkEditor [])
        [⟨"editor-type", ['a', 'b', 'c', 'd', 'e', 'f']⟩,
         ⟨"editor-shift+arrow-left", ['3']⟩,
         ⟨"editor-space", ['1']⟩]).map
      (fun s => (getCodeLines s, s.core.caretRow, s.core.caretCol)) =
      some ([['a', 'b', 'c', 'd', 'e', 'f', ' ']], 0, 7)) ∧
    ([['a', 'b', 'c', 'd', 'e', 'f', ' ']] : List (List Char)) ≠ [['a', 'b', 'c', ' ']] ∧
    (7 : Int) ≠ 4 :=
  ⟨rfl, rfl, by decide, by decide⟩

/-! Cross-engine comparison.  `vertToNew` is the action-name translation between the
older spelling and the unified "editor-" spelling; `coreRel` relates an older-engine
core to a unified-engine core when buffer and raw caret coincide. -/

def vertToNew (a : Act) : Act :=
  ⟨"editor-" ++ a.name, a.value⟩

def coreRel (a b : CoreState) : Prop :=
  a.codeLines = b.codeLines ∧ a.caretRow = b.caretRow ∧ a.caretCol = b.caretCol

theorem coreRel_clearHi {a b : CoreState} (h : coreRel a b) :
    coreRel (clearHi a) (clearHi b) := h

theorem coreRel_arrowUpStep {a b : CoreState} (h : coreRel a b) :
    coreRel (arrowUpStep a) (arrowUpStep b) := by
  obtain ⟨h1, h2, h3⟩ := h
  unfold arrowUpStep
  rw [h2]
  by_cases hc : 0 < b.caretRow
  · rw [if_pos hc, if_pos hc]
    exact ⟨h1, rfl, h3⟩
  · rw [if_neg hc, if_neg hc]
    exact ⟨h1, h2, h3⟩

theorem coreRel_arrowDownStep {a b : CoreState} (h : coreRel a b) :
    coreRel (arrowDownStep a) (arrowDownStep b) := by
  obtain ⟨h1, h2, h3⟩ := h
  unfold arrowDownStep
  rw [h1, h2]
  by_cases hc : b.caretRow < (b.codeLines.length : Int) - 1
  · rw [if_pos hc, if_pos hc]
    exact ⟨rfl, rfl, h3⟩
  · rw [if_neg hc, if_neg hc]
    exact ⟨h1, h2, h3⟩

theorem iterate_rel {f g : CoreState → CoreState} {R : CoreState → CoreState → Prop}
    (hfg : ∀ x y, R x y → R (f x) (g y)) :
    ∀ (n : Nat) (x y : CoreState), R x y → R (f^[n] x) (g^[n] y)
  | 0, _, _, h => h
  | n + 1, x, y, h => iterate_rel hfg n (f x) (g y) (hfg x y h)

/-- One vertical-arrow action keeps the two engines' cores related. -/
theorem coreRel_vertStep {a b : CoreState} (h : coreRel a b) (act : Act)
    (ha : act.name = "arrow-up" ∨ act.name = "arrow-down") :
    ∃ a' b', oldApplyCore a act = some a' ∧
      newApplyCore b (vertToNew act) = some b' ∧ coreRel a' b' := by
  obtain ⟨nm, v⟩ := act
  dsimp only at ha
  rcases ha with rfl | rfl
  · have e2 : newApplyCore b (vertToNew ⟨"arrow-up", v⟩) =
        some (clearHi (arrowUpStep^[nIter (jsParseInt v)]
          { b with currentlyHighlightedCode := [] })) := newApplyCoreArrowUp b v
    exact ⟨_, _, oldApplyCoreArrowUp a v, e2,
      coreRel_clearHi (iterate_rel (fun x y hxy => coreRel_arrowUpStep hxy) _ _ _ h)⟩
  · have e2 : newApplyCore b (vertToNew ⟨"arrow-down", v⟩) =
        some (clearHi (arrowDownStep^[nIter (jsParseInt v)]
          { b with currentlyHighlightedCode := [] })) := newApplyCoreArrowDown b v
    exact ⟨_, _, oldApplyCoreArrowDown a v, e2,
      coreRel_clearHi (iterate_rel (fun x y hxy => coreRel_arrowDownStep hxy) _ _ _ h)⟩

/-- Folding any vertical-arrow action list keeps the two engines' cores related. -/
theorem coreRel_applyCores : ∀ (acts : List Act) (a b : CoreState), coreRel a b →
    (∀ x ∈ acts, x.name = "arrow-up" ∨ x.name = "arrow-down") →
    ∃ a' b', oldApplyCores a acts = some a' ∧
      newApplyCores b (acts.map vertToNew) = some b' ∧ coreRel a' b'
  | [], a, b, h, _ => ⟨a, b, rfl, rfl, h⟩
  | act :: rest, a, b, h, hall => by
    obtain ⟨a1, b1, e1, e2, h1⟩ := coreRel_vertStep h act (hall act (by simp))
    obtain ⟨a', b', e1', e2', h'⟩ :=
      coreRel_applyCores rest a1 b1 h1 (fun x hx => hall x (by simp [hx]))
    refine ⟨a', b', ?_, ?_, h'⟩
    · show (match oldApplyCore a act with
        | none => none
        | some s' => oldApplyCores s' rest) = some a'
      rw [e1]
      exact e1'
    · show (match newApplyCore b (vertToNew act) with
        | none => none
        | some s' => newApplyCores s' (rest.map vertToNew)) = some b'
      rw [e2]
      exact e2'

/-- C9 counterexample: the two engines are NOT behaviorally equivalent.  On buffer
"ab", arrow-right with repeat 2 followed by typing "X" yields "aXb" in the older
engine (its loop guard `caretColumn < currentLineLength - 1` stops at the last
character) but "abX" in the unified engine (guard `caretColumn < currentLineLength`
reaches the end-of-line position). -/
theorem enginesEquivalent_counterexample :
    (oldApplyCores (oldInitCore [['a', 'b']])
        [⟨"arrow-right", ['2']⟩, ⟨"type-editor", ['X']⟩]).map getCodeCore =
      some ['a', 'X', 'b'] ∧
    (newApplyCores (initCore [['a', 'b']])
        [⟨"editor-arrow-right", ['2']⟩, ⟨"editor-type", ['X']⟩]).map getCodeCore =
      some ['a', 'b', 'X'] ∧
    (['a', 'X', 'b'] : List Char) ≠ ['a', 'b', 'X'] :=
  ⟨rfl, rfl, by decide⟩

/-- C9 (amended): the equivalence does hold on the vertical-arrow fragment.  For any
initial lines and any sequence of arrow-up/arrow-down actions (names translated by
`vertToNew`), both engines complete, produce the same buffer, and the older engine's
reported caret equals the unified engine's raw caret (the unified accessor then adds
the constant +1 display offset to each coordinate). -/
theorem verticalArrowEquiv (lines : List (List Char)) (acts : List Act)
    (h : ∀ x ∈ acts, x.name = "arrow-up" ∨ x.name = "arrow-down") :
    ∃ co cn, oldApplyCores (oldInitCore lines) acts = some co ∧
      newApplyCores (initCore lines) (acts.map vertToNew) = some cn ∧
      getCodeCore co = getCodeCore cn ∧
      oldGetCurrentCaretPosition co = (cn.caretRow, cn.caretCol) := by
  obtain ⟨co, cn, e1, e2, h1, h2, h3⟩ :=
    coreRel_applyCores acts (oldInitCore lines) (initCore lines) ⟨rfl, rfl, rfl⟩ h
  refine ⟨co, cn, e1, e2, ?_, ?_⟩
  · unfold getCodeCore
    rw [h1]
  · unfold oldGetCurrentCaretPosition
    rw [h2, h3]

/-- Witness instantiating the amended C9 equivalence on a concrete trace. -/
theorem verticalArrowEquiv_witness :
    ∃ co cn, oldApplyCores (oldInitCore [['a'], ['b']])
        [⟨"arrow-down", ['1']⟩, ⟨"arrow-up", ['2']⟩] = some co ∧
      newApplyCores (initCore [['a'], ['b']])
        ([⟨"arrow-down", ['1']⟩, ⟨"arrow-up", ['2']⟩].map vertToNew) = some cn ∧
      getCodeCore co = getCodeCore cn ∧
      oldGetCurrentCaretPosition co = (cn.caretRow, cn.caretCol) :=
  verticalArrowEquiv [['a'], ['b']] [⟨"arrow-down", ['1']⟩, ⟨"arrow-up", ['2']⟩]
    (by decide)

end CodeVideo
